import Mathlib

/-!
Shallow embedding of the mc-Xmap tile pipeline
(`scripts/merge-map.cjs`, `scripts/process-map.cjs`,
`scripts/generate-mip-pyramid.cjs`) and proofs about it.

Conventions of the embedding:
* JS numbers holding integer values are `Int` (or `Nat` where the source
  value is a count / size); `Math.floor(a / b)` is `Int.fdiv`.
* Raw RGB buffers are modelled as total pixel functions `Nat × Nat → Pixel`
  ((column, row) access); the flat-buffer index arithmetic of the source
  addresses exactly the pixel `(x, y)` that these functions address, and
  distinct loop iterations write distinct cells.
* Filesystem values (directory listings, stat results, decoded images) are
  explicit parameters, since the scripts obtain them from external services.
-/

namespace Xmap

/-- One RGB pixel of a decoded 3-channel buffer. -/
abbrev Pixel := Nat × Nat × Nat

/-- The transparency sentinel: pure black `(0,0,0)`. -/
def sentinel : Pixel := (0, 0, 0)

/-- A decoded tile image: pixel lookup by local `(column, row)`. -/
abbrev Img := Nat × Nat → Pixel

/-- The merge canvas: pixels addressed by `(column, row)`. -/
abbrev Canvas := Nat × Nat → Pixel

/-- `Math.floor(a / b)` of the JS sources, for integer arguments. -/
def jsFloorDiv (a b : Int) : Int := Int.fdiv a b

/-- `Math.ceil(a / b)` of the JS sources, for integer arguments. -/
def jsCeilDiv (a b : Int) : Int := -(Int.fdiv (-a) b)

/-- `Math.round(a / b)` of the JS sources for `b > 0`: `floor(a/b + 1/2)`. -/
def jsRoundDiv (a b : Int) : Int := jsFloorDiv (2 * a + b) (2 * b)

/-- `String.prototype.toLowerCase` (ASCII case folding, which covers the
folder names the scripts deal with), as a computable character map. -/
def lowerStr (s : String) : String := String.mk (s.data.map Char.toLower)

/-- `String.prototype.startsWith`, on character lists. -/
def startsWithChars : List Char → List Char → Bool
  | [], _ => true
  | _ :: _, [] => false
  | p :: ps, c :: cs => p = c && startsWithChars ps cs

/-- Decimal digit run to its numeric value (`Number.parseInt` on a digit string). -/
def digitsToNat : List Char → Nat → Nat
  | [], acc => acc
  | c :: cs, acc => digitsToNat cs (acc * 10 + (c.toNat - '0'.toNat))

/-- `MAP_FOLDER_RE = /^map(\d+)$/i`: the whole name is, case-insensitively,
`map` followed by one or more digits; yields the parsed numeric suffix. -/
def parseMapSuffix (name : String) : Option Nat :=
  match (lowerStr name).data with
  | 'm' :: 'a' :: 'p' :: rest =>
    if rest ≠ [] ∧ rest.all (·.isDigit) then some (digitsToNat rest 0) else none
  | _ => none

/-- `folderSortKey`: numbered `map*` folders get key `(0, -suffix, lowercase name)`
(so ascending key order is descending suffix order), all other folders get
`(1, 0, lowercase name)`. -/
def folderSortKey (folderName : String) : Nat × Int × String :=
  match parseMapSuffix folderName with
  | some n => (0, -(n : Int), lowerStr folderName)
  | none => (1, 0, lowerStr folderName)

/-- `compareFolderName`: three-way comparison of folder sort keys (numeric
components by subtraction, string component by JS `<`/`>`). -/
def compareFolderName (a b : String) : Int :=
  let ka := folderSortKey a
  let kb := folderSortKey b
  if ka.1 ≠ kb.1 then (ka.1 : Int) - (kb.1 : Int)
  else if ka.2.1 ≠ kb.2.1 then ka.2.1 - kb.2.1
  else if ka.2.2 < kb.2.2 then -1
  else if ka.2.2 > kb.2.2 then 1
  else 0

/-- Insert an element into a list, placing it before the first element it
compares strictly below and hence after every element it ties with. -/
def insertByCmp (cmp : String → String → Int) (a : String) : List String → List String
  | [] => [a]
  | b :: bs => if cmp a b < 0 then a :: b :: bs else b :: insertByCmp cmp a bs

/-- Stable sort by a JS three-way comparator; models `Array.prototype.sort`,
which ECMAScript requires to be stable. -/
def sortByCmp (cmp : String → String → Int) (l : List String) : List String :=
  l.foldl (fun acc a => insertByCmp cmp a acc) []

/-- Pure core of `getFolders`: from the base directory's subdirectory names,
keep those that do not start with `.` and whose lowercase form starts with
`map`, sorted by `compareFolderName`. -/
def getFolders (subdirNames : List String) : List String :=
  sortByCmp compareFolderName
    (subdirNames.filter fun n =>
      !startsWithChars ['.'] n.data && startsWithChars ['m', 'a', 'p'] (lowerStr n).data)

/-- Greedily split a leading run of decimal digits from the rest. -/
def spanDigits : List Char → List Char × List Char
  | [] => ([], [])
  | c :: cs =>
    if c.isDigit then
      let (d, r) := spanDigits cs
      (c :: d, r)
    else ([], c :: cs)

/-- Match the regex fragment `-?\d+` at the head of the character list,
returning the parsed integer and the remaining characters. -/
def parseSignedInt : List Char → Option (Int × List Char)
  | '-' :: cs =>
    let (d, r) := spanDigits cs
    if d = [] then none else some (-(digitsToNat d 0 : Int), r)
  | cs =>
    let (d, r) := spanDigits cs
    if d = [] then none else some ((digitsToNat d 0 : Int), r)

/-- Match `COORD_RE = /x(-?\d+)_z(-?\d+)/` anchored at the head of the list. -/
def matchCoordHere : List Char → Option (Int × Int)
  | 'x' :: cs =>
    match parseSignedInt cs with
    | some (x, '_' :: 'z' :: cs2) =>
      match parseSignedInt cs2 with
      | some (z, _) => some (x, z)
      | none => none
    | _ => none
  | _ => none

/-- Leftmost match of `COORD_RE` in a character list (regex `exec` semantics). -/
def findCoord : List Char → Option (Int × Int)
  | [] => none
  | c :: cs =>
    match matchCoordHere (c :: cs) with
    | some r => some r
    | none => findCoord cs

/-- Pure core of `getImgXZ`: the x/z world coordinates embedded in a file
stem via `COORD_RE`; `none` models the `[null, null]` skip path. -/
def getImgXZ (stem : String) : Option (Int × Int) := findCoord stem.data

/-- `alignToChunk`: snap `val` to the chunk grid anchored at `base`,
downwards (`down = true`) or upwards. -/
def alignToChunk (val base chunkSize : Int) (down : Bool) : Int :=
  let offset := val - base
  if down then base + jsFloorDiv offset chunkSize * chunkSize
  else base + jsCeilDiv offset chunkSize * chunkSize

/-- One cell of the output grid (`createGrid` element). -/
structure Chunk where
  gx : Int
  gz : Int
  vx : Int
  vz : Int
deriving DecidableEq, Repr

/-- `createGrid`: align the bounding box outward to the chunk grid anchored at
`(baseX, baseZ)` and emit one chunk per cell, `gz`-major then `gx`-minor
(the JS double `for` loop). Returns the chunks and the aligned map bound. -/
def createGrid (x0 z0 x1 z1 chunkSize baseX baseZ : Int) :
    List Chunk × (Int × Int × Int × Int) :=
  let alignedX0 := alignToChunk x0 baseX chunkSize true
  let alignedZ0 := alignToChunk z0 baseZ chunkSize true
  let alignedX1 := alignToChunk x1 baseX chunkSize false + chunkSize - 1
  let alignedZ1 := alignToChunk z1 baseZ chunkSize false + chunkSize - 1
  let startGx := jsFloorDiv (alignedX0 - baseX) chunkSize
  let endGx := jsFloorDiv (alignedX1 - baseX) chunkSize
  let startGz := jsFloorDiv (alignedZ0 - baseZ) chunkSize
  let endGz := jsFloorDiv (alignedZ1 - baseZ) chunkSize
  let chunks :=
    (List.range (endGz - startGz + 1).toNat).flatMap fun (j : Nat) =>
      (List.range (endGx - startGx + 1).toNat).map fun (i : Nat) =>
        let gx := startGx + (i : Int)
        let gz := startGz + (j : Int)
        { gx := gx, gz := gz, vx := baseX + gx * chunkSize, vz := baseZ + gz * chunkSize }
  (chunks, (alignedX0, alignedZ0, alignedX1, alignedZ1))

/-- `TileRef`: one source image's placement in the world. -/
structure TileRef where
  filePath : String
  x0 : Int
  z0 : Int
  x1 : Int
  z1 : Int
deriving DecidableEq, Repr

/-- The `TileRef` constructor: bounding box of side `tileSize` at `(x0, z0)`. -/
def TileRef.make (filePath : String) (x0 z0 tileSize : Int) : TileRef :=
  { filePath := filePath, x0 := x0, z0 := z0
    x1 := x0 + tileSize - 1, z1 := z0 + tileSize - 1 }

/-- `TileRTreeIndex.addTile`: append a `TileRef` (the JS `push`). -/
def addTile (tiles : List TileRef) (x0 z0 : Int) (filePath : String) (tileSize : Int) :
    List TileRef :=
  tiles ++ [TileRef.make filePath x0 z0 tileSize]

/-- The containment test of `findByCoordinate`. -/
def TileRef.containsPt (t : TileRef) (targetX targetZ : Int) : Bool :=
  decide (targetX ≥ t.x0) && decide (targetX ≤ t.x1) &&
    decide (targetZ ≥ t.z0) && decide (targetZ ≤ t.z1)

/-- `TileRTreeIndex.findByCoordinate`: file path of the first stored tile whose
box contains the point; `none` models the `null` return. -/
def findByCoordinate (tiles : List TileRef) (targetX targetZ : Int) : Option String :=
  (tiles.find? fun t => t.containsPt targetX targetZ).map TileRef.filePath

/-- `TileRTreeIndex.findByArea`: all stored tiles overlapping the normalized
query rectangle, in storage order. -/
def findByArea (tiles : List TileRef) (areaX0 areaZ0 areaX1 areaZ1 : Int) : List TileRef :=
  let minX := min areaX0 areaX1
  let maxX := max areaX0 areaX1
  let minZ := min areaZ0 areaZ1
  let maxZ := max areaZ0 areaZ1
  tiles.filter fun t =>
    !(decide (t.x1 < minX) || decide (t.x0 > maxX) ||
      decide (t.z1 < minZ) || decide (t.z0 > maxZ))

/-- `rectIntersection`: intersection of two inclusive rectangles, `none` when empty. -/
def rectIntersection (ax0 az0 ax1 az1 bx0 bz0 bx1 bz1 : Int) :
    Option (Int × Int × Int × Int) :=
  let ix0 := max ax0 bx0
  let iz0 := max az0 bz0
  let ix1 := min ax1 bx1
  let iz1 := min az1 bz1
  if ix0 > ix1 ∨ iz0 > iz1 then none else some (ix0, iz0, ix1, iz1)

/-- `DirFIndex.queryArea` restricted to one folder: an unloaded folder yields
`[]` (the merge loop's `areaTiles.get(folder) || []`). The query rectangle is
normalized once here and once more inside `findByArea`, as in the source. -/
def queryAreaFolder (indexes : String → Option (List TileRef))
    (folder : String) (x0 z0 x1 z1 : Int) : List TileRef :=
  match indexes folder with
  | some tiles => findByArea tiles (min x0 x1) (min z0 z1) (max x0 x1) (max z0 z1)
  | none => []

/-- Inner pixel loop of `mergeSingleChunk` for one row: cells `x = 0 .. w-1`;
a sentinel source pixel is skipped, any other pixel is written to the canvas.
`w + 1` first runs cells `0 .. w-1` (the recursive call), then cell `w`,
matching the loop order; the Boolean reports whether any cell was written. -/
def copyRow (img : Img) (canvas : Canvas) (srcX0 srcY dstX0 dstY : Nat) :
    Nat → Canvas × Bool
  | 0 => (canvas, false)
  | w + 1 =>
    let r := copyRow img canvas srcX0 srcY dstX0 dstY w
    let p := img (srcX0 + w, srcY)
    if p = sentinel then r
    else (Function.update r.1 (dstX0 + w, dstY) p, true)

/-- Row loop of `mergeSingleChunk`: rows `y = 0 .. h-1` of the intersection. -/
def copyRect (img : Img) (canvas : Canvas) (srcX0 srcY0 dstX0 dstY0 w : Nat) :
    Nat → Canvas × Bool
  | 0 => (canvas, false)
  | h + 1 =>
    let r := copyRect img canvas srcX0 srcY0 dstX0 dstY0 w h
    let r2 := copyRow img r.1 srcX0 (srcY0 + h) dstX0 (dstY0 + h) w
    (r2.1, r.2 || r2.2)

/-- Running state of `mergeSingleChunk`: canvas, `wroteAny`, `touchedTiles`. -/
structure MergeAcc where
  canvas : Canvas
  wroteAny : Bool
  touchedTiles : Nat

/-- Body of the per-tile loop of `mergeSingleChunk`: clip the tile against the
chunk rectangle, translate to source/destination local coordinates, copy the
non-sentinel pixels, and update `wroteAny` / `touchedTiles`. -/
def mergeTile (images : String → Img) (chunkX0 chunkZ0 chunkX1 chunkZ1 : Int)
    (acc : MergeAcc) (tileRef : TileRef) : MergeAcc :=
  match rectIntersection chunkX0 chunkZ0 chunkX1 chunkZ1
      tileRef.x0 tileRef.z0 tileRef.x1 tileRef.z1 with
  | none => acc
  | some (ix0, iz0, ix1, iz1) =>
    let srcX0 := (ix0 - tileRef.x0).toNat
    let srcY0 := (iz0 - tileRef.z0).toNat
    let dstX0 := (ix0 - chunkX0).toNat
    let dstY0 := (iz0 - chunkZ0).toNat
    let width := (ix1 - ix0 + 1).toNat
    let height := (iz1 - iz0 + 1).toNat
    let r := copyRect (images tileRef.filePath) acc.canvas srcX0 srcY0 dstX0 dstY0 width height
    { canvas := r.1
      wroteAny := acc.wroteAny || r.2
      touchedTiles := acc.touchedTiles + if r.2 then 1 else 0 }

/-- `mergeSingleChunk`: composite every layer's overlapping tiles, in folder
order, onto a black canvas for one chunk. `images` is the decoded content the
tile cache hands back per file path (decoding is external to the merge logic). -/
def mergeSingleChunk (images : String → Img) (indexes : String → Option (List TileRef))
    (folderOrder : List String) (tileSize : Nat) (chunk : Chunk) :
    Canvas × Bool × Nat :=
  let chunkX0 := chunk.vx
  let chunkZ0 := chunk.vz
  let chunkX1 := chunkX0 + (tileSize : Int) - 1
  let chunkZ1 := chunkZ0 + (tileSize : Int) - 1
  let acc0 : MergeAcc := { canvas := fun _ => sentinel, wroteAny := false, touchedTiles := 0 }
  let acc := folderOrder.foldl
    (fun acc folder =>
      (queryAreaFolder indexes folder chunkX0 chunkZ0 chunkX1 chunkZ1).foldl
        (mergeTile images chunkX0 chunkZ0 chunkX1 chunkZ1) acc)
    acc0
  (acc.canvas, acc.wroteAny, acc.touchedTiles)

/-- `processAndSaveChunk`: merge one chunk, then either skip it (empty and no
`saveEmpty`) or persist it. The `Option Canvas` component stands for the PNG
file written (`some` = a file was produced for this chunk). -/
def processAndSaveChunk (images : String → Img) (indexes : String → Option (List TileRef))
    (folderOrder : List String) (tileSize : Nat) (saveEmpty : Bool) (chunk : Chunk) :
    Bool × Nat × Option Canvas :=
  let r := mergeSingleChunk images indexes folderOrder tileSize chunk
  if !r.2.1 && !saveEmpty then (false, 0, none)
  else (true, r.2.2, some r.1)

/-- Specification device for the compositing proofs: the pixel a single tile
would write at world point `(wx, wz)` — `some` when the tile's box contains
the point and its decoded pixel there is not the sentinel. -/
def tileWrite (images : String → Img) (wx wz : Int) (t : TileRef) : Option Pixel :=
  if t.x0 ≤ wx ∧ wx ≤ t.x1 ∧ t.z0 ≤ wz ∧ wz ≤ t.z1 then
    if images t.filePath ((wx - t.x0).toNat, (wz - t.z0).toNat) = sentinel then none
    else some (images t.filePath ((wx - t.x0).toNat, (wz - t.z0).toNat))
  else none

/-- The sequence of non-sentinel writes a tile list performs at one world
point, in processing order. -/
def writesAt (images : String → Img) (tiles : List TileRef) (wx wz : Int) : List Pixel :=
  tiles.filterMap (tileWrite images wx wz)

/-- Result of `fs.stat` on the output path, an input of `clearOutputDir`. -/
inductive PathStat where
  | missing
  | file
  | dir
deriving DecidableEq, Repr

/-- `clearOutputDir` of merge-map: both safety guards run before any
filesystem mutation. On success the returned list is the sequence of child
paths removed (a missing output directory is created and nothing is removed);
an error models the thrown exception, with nothing removed. -/
def clearOutputDir (resolvedOut resolvedBase rootOfOut : String)
    (outStat : PathStat) (children : List String) : Except String (List String) :=
  if resolvedOut = resolvedBase then
    Except.error "output dir equals data dir"
  else if resolvedOut = rootOfOut then
    Except.error "refuse to clear filesystem root"
  else
    match outStat with
    | PathStat.missing => Except.ok []
    | PathStat.file => Except.error "output path is not a directory"
    | PathStat.dir => Except.ok children

/-- `clearDirSafe` of process-map: root check first, then source check, before
the single recursive removal of the directory itself. -/
def clearDirSafe (resolvedDir resolvedSource rootOfDir : String) :
    Except String (List String) :=
  if resolvedDir = rootOfDir then
    Except.error "Refuse to clear filesystem root"
  else if resolvedDir = resolvedSource then
    Except.error "Output dir must not equal source dir"
  else Except.ok [resolvedDir]

/-- `TileCache` state. The JS `Map` from cache key to the in-flight or
resolved decode promise is an insertion-ordered association list; promises
are identified by the order in which they were created (`nextPromise`), and
`decodeLog` records every `readRgbTile` call started, with its key and
promise. The key type abstracts the string `"${tileSize}|${tilePath}"`,
which is an injective pairing of `(tilePath, tileSize)`. -/
structure TileCache (K : Type) where
  maxSize : Nat
  cache : List (K × Nat)
  nextPromise : Nat
  decodeLog : List (K × Nat)
deriving Repr

/-- `new TileCache(maxSize)`: empty map. -/
def TileCache.init (K : Type) (maxSize : Nat) : TileCache K :=
  { maxSize := maxSize, cache := [], nextPromise := 0, decodeLog := [] }

/-- `Map.prototype.get` on the association list. -/
def mapGet {K : Type} [DecidableEq K] (k : K) : List (K × Nat) → Option Nat
  | [] => none
  | e :: rest => if e.1 = k then some e.2 else mapGet k rest

/-- `Map.prototype.delete` on the association list. -/
def mapDelete {K : Type} [DecidableEq K] (k : K) : List (K × Nat) → List (K × Nat)
  | [] => []
  | e :: rest => if e.1 = k then rest else e :: mapDelete k rest

/-- The `while (this.cache.size > this.maxSize)` eviction loop: repeatedly
drop the first (oldest) entry while the map is over capacity. -/
def evictOldest {K : Type} (maxSize : Nat) : List (K × Nat) → List (K × Nat)
  | [] => []
  | e :: rest =>
    if rest.length + 1 > maxSize then evictOldest maxSize rest else e :: rest

/-- `TileCache.loadRgbTile`: on a hit, refresh recency (delete + re-insert at
the end) and return the cached promise; on a miss, start one decode (a fresh
promise, logged in `decodeLog`), insert it, evict while over capacity, and
return it. The returned `Nat` is the promise the caller awaits. -/
def TileCache.loadRgbTile {K : Type} [DecidableEq K] (tc : TileCache K) (key : K) :
    TileCache K × Nat :=
  match mapGet key tc.cache with
  | some v =>
    ({ tc with cache := mapDelete key tc.cache ++ [(key, v)] }, v)
  | none =>
    let v := tc.nextPromise
    ({ maxSize := tc.maxSize
       cache := evictOldest tc.maxSize (tc.cache ++ [(key, v)])
       nextPromise := v + 1
       decodeLog := tc.decodeLog ++ [(key, v)] }, v)

/-- Run a sequence of `loadRgbTile` requests, returning the final state and
the promise each request resolved to, in order. -/
def TileCache.runLoads {K : Type} [DecidableEq K] (tc : TileCache K) :
    List K → TileCache K × List Nat
  | [] => (tc, [])
  | k :: ks =>
    let r := tc.loadRgbTile k
    let rest := r.1.runLoads ks
    (rest.1, r.2 :: rest.2)

/-! Definitions from `scripts/generate-mip-pyramid.cjs`. -/

/-- `TILE_SIZE` constant of the pyramid builder. -/
def TILE_SIZE : Int := 1024

/-- `X_OFFSET` constant of the pyramid builder. -/
def X_OFFSET : Int := 512

/-- One tile of a pyramid level (world coordinates; file naming is derived
from these and carries no extra state). -/
structure MipTile where
  x : Int
  z : Int
deriving DecidableEq, Repr

/-- `parentCoord`: the parent-grid anchor a child coordinate maps to. -/
def parentCoord (childX childZ parentStep : Int) : Int × Int :=
  (jsFloorDiv (childX - X_OFFSET) parentStep * parentStep + X_OFFSET,
   jsFloorDiv childZ parentStep * parentStep)

/-- One group of the level loop: a parent anchor and its child tiles. -/
structure MipGroup where
  x : Int
  z : Int
  children : List MipTile
deriving DecidableEq, Repr

/-- Quadrant placement of one child inside its parent canvas in
`buildParentTile`; `none` models the defensive bound check skipping the
child (`continue`, never a throw). -/
def childPlacement (group : MipGroup) (prevWorldSize : Int) (child : MipTile) :
    Option (Int × Int) :=
  let half : Int := TILE_SIZE / 2
  let dx := jsRoundDiv (child.x - group.x) prevWorldSize
  let dy := jsRoundDiv (child.z - group.z) prevWorldSize
  let left := dx * half
  let top := dy * half
  if left < 0 ∨ left > half ∨ top < 0 ∨ top > half then none
  else some (left, top)

/-- `buildParentTile`: the composite operations actually drawn onto the
parent canvas — each kept child with its `(left, top)` placement. -/
def buildParentTile (group : MipGroup) (prevWorldSize : Int) :
    List (MipTile × Int × Int) :=
  group.children.filterMap fun child =>
    (childPlacement group prevWorldSize child).map fun pt => (child, pt.1, pt.2)

/-- Insert one tile into the grouped map: appended to an existing group with
the same parent anchor, else a fresh group at the end (JS `Map` order). -/
def addToGroups (px pz : Int) (t : MipTile) : List MipGroup → List MipGroup
  | [] => [{ x := px, z := pz, children := [t] }]
  | g :: rest =>
    if g.x = px ∧ g.z = pz then { g with children := g.children ++ [t] } :: rest
    else g :: addToGroups px pz t rest

/-- The `grouped` map of one level iteration, in insertion order. -/
def groupByParent (tiles : List MipTile) (worldSize : Int) : List MipGroup :=
  tiles.foldl
    (fun gs t =>
      let p := parentCoord t.x t.z worldSize
      addToGroups p.1 p.2 t gs)
    []

/-- One entry of the `levels` array recorded for the manifest. -/
structure MipLevelRec where
  level : Nat
  worldSize : Int
  count : Nat
  tiles : List MipTile
deriving DecidableEq, Repr

/-- The `for (let level = 1; level <= maxLevels; level++)` loop of the
pyramid builder's `main`. `remaining` counts the levels the loop may still
run (`maxLevels + 1 - level`), making the recursion structural; `level` is
the actual level number. A level yielding no tiles stops without being
recorded; a level yielding one tile is recorded and then stops. -/
def mipLoop (current : List MipTile) (level : Nat) : Nat → List MipLevelRec
  | 0 => []
  | remaining + 1 =>
    let prevWorldSize : Int := TILE_SIZE * 2 ^ (level - 1)
    let worldSize := prevWorldSize * 2
    let groups := groupByParent current worldSize
    let nextTiles := groups.map fun g => { x := g.x, z := g.z : MipTile }
    if nextTiles.length = 0 then []
    else
      let levelRec : MipLevelRec :=
        { level := level, worldSize := worldSize
          count := nextTiles.length, tiles := nextTiles }
      if nextTiles.length ≤ 1 then [levelRec]
      else levelRec :: mipLoop nextTiles (level + 1) remaining

/-- The `levels` array of the pyramid builder: the level-0 record wrapping the
base tiles verbatim, followed by the generated levels. This list is what the
manifest's `levels` field serializes. -/
def buildLevels (base : List MipTile) (maxLevels : Nat) : List MipLevelRec :=
  { level := 0, worldSize := TILE_SIZE, count := base.length, tiles := base }
    :: mipLoop base 1 maxLevels

/-! Theorems. -/

/-- Containment of a point in a `TileRef` bounding box, as a proposition. -/
def TileRef.containsP (t : TileRef) (x z : Int) : Prop :=
  t.x0 ≤ x ∧ x ≤ t.x1 ∧ t.z0 ≤ z ∧ z ≤ t.z1

/-- Strict lexicographic order on folder sort keys. -/
def keyLT (a b : String) : Prop :=
  (folderSortKey a).1 < (folderSortKey b).1 ∨
    ((folderSortKey a).1 = (folderSortKey b).1 ∧
      ((folderSortKey a).2.1 < (folderSortKey b).2.1 ∨
        ((folderSortKey a).2.1 = (folderSortKey b).2.1 ∧
          (folderSortKey a).2.2 < (folderSortKey b).2.2)))

/-- Non-strict order on folder sort keys. -/
def keyLE (a b : String) : Prop := keyLT a b ∨ folderSortKey a = folderSortKey b

theorem containsPt_eq_true_iff (t : TileRef) (x z : Int) :
    (t.containsPt x z = true) ↔ t.containsP x z := by
  simp [TileRef.containsPt, TileRef.containsP, and_assoc, ge_iff_le]

/-- C10: `findByCoordinate` returns `null` exactly when no stored tile's box
contains the point, and otherwise returns the file path of the
earliest-added containing tile (insertion order resolves overlaps). -/
theorem findByCoordinate_earliest (tiles : List TileRef) (x z : Int) :
    (findByCoordinate tiles x z = none ↔ ∀ t ∈ tiles, ¬t.containsP x z) ∧
    (∀ pre t post, tiles = pre ++ t :: post →
      (∀ u ∈ pre, ¬u.containsP x z) → t.containsP x z →
      findByCoordinate tiles x z = some t.filePath) := by
  constructor
  · simp [findByCoordinate, List.find?_eq_none, containsPt_eq_true_iff]
  · intro pre t post hsplit hpre ht
    have hfindpre : pre.find? (fun u => u.containsPt x z) = none := by
      rw [List.find?_eq_none]
      intro u hu
      have := hpre u hu
      simpa [containsPt_eq_true_iff] using this
    subst hsplit
    simp [findByCoordinate, List.find?_append, hfindpre,
      List.find?_cons_of_pos, (containsPt_eq_true_iff t x z).mpr ht]

/-- Witness for C10 at a concrete index: two overlapping tiles both contain
`(30, 40)`; the earliest-added one wins. -/
theorem findByCoordinate_earliest_witness :
    findByCoordinate
      [TileRef.make "a.png" 0 0 64, TileRef.make "b.png" 16 16 64] 30 40
      = some (TileRef.make "a.png" 0 0 64).filePath :=
  (findByCoordinate_earliest
      [TileRef.make "a.png" 0 0 64, TileRef.make "b.png" 16 16 64] 30 40).2
    [] (TileRef.make "a.png" 0 0 64) [TileRef.make "b.png" 16 16 64] rfl
    (by intro u hu; simp at hu)
    (by constructor <;> [decide; constructor <;> [decide; constructor <;> decide]])

/-- C9: both output-clearing routines refuse to act when the resolved output
directory equals the filesystem root or the resolved source/base directory:
they throw before removing anything (the error is produced with no removal
actions, and the orchestrators abort the run on it). -/
theorem clear_refuses_root_and_source
    (out base rootOut dir src rootDir : String)
    (st : PathStat) (children : List String) :
    (out = base ∨ out = rootOut →
      ∃ e, clearOutputDir out base rootOut st children = Except.error e) ∧
    (dir = rootDir ∨ dir = src →
      ∃ e, clearDirSafe dir src rootDir = Except.error e) := by
  constructor
  · rintro (h | h)
    · refine ⟨"output dir equals data dir", ?_⟩
      unfold clearOutputDir
      rw [if_pos h]
    · by_cases hb : out = base
      · refine ⟨"output dir equals data dir", ?_⟩
        unfold clearOutputDir
        rw [if_pos hb]
      · refine ⟨"refuse to clear filesystem root", ?_⟩
        unfold clearOutputDir
        rw [if_neg hb, if_pos h]
  · rintro (h | h)
    · refine ⟨"Refuse to clear filesystem root", ?_⟩
      unfold clearDirSafe
      rw [if_pos h]
    · by_cases hr : dir = rootDir
      · refine ⟨"Refuse to clear filesystem root", ?_⟩
        unfold clearDirSafe
        rw [if_pos hr]
      · refine ⟨"Output dir must not equal source dir", ?_⟩
        unfold clearDirSafe
        rw [if_neg hr, if_pos h]

/-- Witness for C9: concrete refusals for both routines. -/
theorem clear_refuses_root_and_source_witness :
    (∃ e, clearOutputDir "/data/map" "/data/map" "/" PathStat.dir ["old.png"]
        = Except.error e) ∧
    (∃ e, clearDirSafe "/" "/data/map" "/" = Except.error e) :=
  ⟨(clear_refuses_root_and_source "/data/map" "/data/map" "/" "/" "/data/map" "/"
      PathStat.dir ["old.png"]).1 (Or.inl rfl),
   (clear_refuses_root_and_source "/data/map" "/data/map" "/" "/" "/data/map" "/"
      PathStat.dir ["old.png"]).2 (Or.inl rfl)⟩

/-- Counterexample to C5: `getImgXZ` parses whatever integers the filename
embeds and enforces no grid phase; the stem `tile_x100_z37` yields the tile
coordinate `(100, 37)`, and `(100 - 512) mod 1024 ≠ 0` (with the pipeline's
`xOffset = 512`, `tileSize = 1024`), so a `TileRef` built from it violates
the claimed invariant. -/
theorem getImgXZ_offgrid_counterexample :
    getImgXZ "tile_x100_z37" = some (100, 37) ∧ ¬((100 - X_OFFSET) % TILE_SIZE = 0) := by
  constructor
  · rfl
  · decide

/-- C5 (amended): the grid-phase invariant holds for every chunk emitted by
`createGrid` (relative to its `baseX`/`baseZ` and chunk size) and for every
parent tile anchor computed by `parentCoord` at any pyramid level (step
`TILE_SIZE * 2^L`, both for that step and for the base `TILE_SIZE` grid);
`getImgXZ` merely parses the embedded integers, so TileRefs satisfy the
invariant only when their filenames do. -/
theorem grid_phase_invariant
    (x0 z0 x1 z1 chunkSize baseX baseZ : Int) (cx cz : Int) (L : Nat) :
    (∀ c ∈ (createGrid x0 z0 x1 z1 chunkSize baseX baseZ).1,
      (c.vx - baseX) % chunkSize = 0 ∧ (c.vz - baseZ) % chunkSize = 0) ∧
    (((parentCoord cx cz (TILE_SIZE * 2 ^ L)).1 - X_OFFSET) % (TILE_SIZE * 2 ^ L) = 0 ∧
      (parentCoord cx cz (TILE_SIZE * 2 ^ L)).2 % (TILE_SIZE * 2 ^ L) = 0) ∧
    (((parentCoord cx cz (TILE_SIZE * 2 ^ L)).1 - X_OFFSET) % TILE_SIZE = 0 ∧
      (parentCoord cx cz (TILE_SIZE * 2 ^ L)).2 % TILE_SIZE = 0) := by
  refine ⟨?_, ⟨?_, ?_⟩, ⟨?_, ?_⟩⟩
  · intro c hc
    simp only [createGrid, List.mem_flatMap, List.mem_map, List.mem_range] at hc
    obtain ⟨j, _, i, _, rfl⟩ := hc
    constructor
    · have h : ∀ b g s : Int, b + g * s - b = g * s := by intro b g s; ring
      rw [h]
      exact Int.mul_emod_left _ _
    · have h : ∀ b g s : Int, b + g * s - b = g * s := by intro b g s; ring
      rw [h]
      exact Int.mul_emod_left _ _
  · have h : (parentCoord cx cz (TILE_SIZE * 2 ^ L)).1 - X_OFFSET =
        jsFloorDiv (cx - X_OFFSET) (TILE_SIZE * 2 ^ L) * (TILE_SIZE * 2 ^ L) := by
      simp [parentCoord]
    rw [h]
    exact Int.mul_emod_left _ _
  · exact Int.mul_emod_left _ _
  · have : ((parentCoord cx cz (TILE_SIZE * 2 ^ L)).1 - X_OFFSET) =
        jsFloorDiv (cx - X_OFFSET) (TILE_SIZE * 2 ^ L) * 2 ^ L * TILE_SIZE := by
      simp [parentCoord]; ring
    rw [this]
    exact Int.mul_emod_left _ _
  · have : (parentCoord cx cz (TILE_SIZE * 2 ^ L)).2 =
        jsFloorDiv cz (TILE_SIZE * 2 ^ L) * 2 ^ L * TILE_SIZE := by
      simp [parentCoord]; ring
    rw [this]
    exact Int.mul_emod_left _ _

theorem jsFloorDiv_eq_ediv (a : Int) {b : Int} (hb : 0 < b) : jsFloorDiv a b = a / b :=
  Int.fdiv_eq_ediv a (le_of_lt hb)

theorem ediv_mul_le_self (a : Int) {b : Int} (hb : 0 < b) : a / b * b ≤ a := by
  have h := Int.ediv_add_emod a b
  have h0 := Int.emod_nonneg a (ne_of_gt hb)
  nlinarith [h, h0]

theorem lt_ediv_mul_add (a : Int) {b : Int} (hb : 0 < b) : a < a / b * b + b := by
  have h := Int.ediv_add_emod a b
  have h1 := Int.emod_lt_of_pos a hb
  nlinarith [h, h1]

theorem le_jsCeilDiv_mul (a : Int) {b : Int} (hb : 0 < b) : a ≤ jsCeilDiv a b * b := by
  have h := ediv_mul_le_self (-a) hb
  have e : jsCeilDiv a b * b = -((-a) / b * b) := by
    rw [jsCeilDiv, Int.fdiv_eq_ediv _ (le_of_lt hb)]
    ring
  rw [e]
  linarith

theorem length_flatMap_range_map {α : Type} (w : Nat) (g : Nat → Nat → α) :
    ∀ h : Nat,
      ((List.range h).flatMap fun j => (List.range w).map (g j)).length = h * w := by
  intro h
  induction h with
  | zero => simp
  | succ n ih =>
    rw [List.range_succ, List.flatMap_append, List.length_append, ih]
    simp [Nat.succ_mul]

theorem getElem?_flatMap_range_map {α : Type} (w : Nat) (g : Nat → Nat → α) :
    ∀ h j k : Nat, j < h → k < w →
      ((List.range h).flatMap fun j => (List.range w).map (g j))[j * w + k]? = some (g j k) := by
  intro h
  induction h with
  | zero => intro j k hj; omega
  | succ n ih =>
    intro j k hj hk
    rw [List.range_succ, List.flatMap_append]
    rcases Nat.lt_or_ge j n with hjn | hjn
    · have hlt : j * w + k < ((List.range n).flatMap fun j => (List.range w).map (g j)).length := by
        rw [length_flatMap_range_map]
        calc j * w + k < j * w + w := by omega
          _ = (j + 1) * w := by rw [Nat.succ_mul]
          _ ≤ n * w := Nat.mul_le_mul_right w (by omega)
      rw [List.getElem?_append_left hlt]
      exact ih j k hjn hk
    · have hj' : j = n := by omega
      subst hj'
      have hge : ((List.range j).flatMap fun i => (List.range w).map (g i)).length ≤ j * w + k := by
        rw [length_flatMap_range_map]
        omega
      rw [List.getElem?_append_right hge]
      have hsub : j * w + k - ((List.range j).flatMap fun i => (List.range w).map (g i)).length = k := by
        rw [length_flatMap_range_map]
        omega
      simp only [List.flatMap_cons, List.flatMap_nil, List.append_nil, hsub]
      rw [List.getElem?_eq_getElem (by simpa using hk)]
      simp

theorem mem_flatMap_range_map {α : Type} (w h : Nat) (g : Nat → Nat → α) (j k : Nat)
    (hj : j < h) (hk : k < w) :
    g j k ∈ (List.range h).flatMap fun j => (List.range w).map (g j) := by
  simp only [List.mem_flatMap, List.mem_map, List.mem_range]
  exact ⟨j, hj, k, hk, rfl⟩

/-- C3: every chunk emitted by `createGrid` has world origin
`vx = baseX + gx * chunkSize`, `vz = baseZ + gz * chunkSize`; the emitted
`chunkSize`-square cells cover the whole input bounding box with no gaps; and
the chunks come in a fixed deterministic row-major order: the list has
`rows * cols` entries and entry `j * cols + k` is exactly the cell
`(startGx + k, startGz + j)`. -/
theorem createGrid_covering
    (x0 z0 x1 z1 chunkSize baseX baseZ : Int) (hcs : 0 < chunkSize) :
    (∀ c ∈ (createGrid x0 z0 x1 z1 chunkSize baseX baseZ).1,
      c.vx = baseX + c.gx * chunkSize ∧ c.vz = baseZ + c.gz * chunkSize) ∧
    (∀ x z : Int, x0 ≤ x → x ≤ x1 → z0 ≤ z → z ≤ z1 →
      ∃ c ∈ (createGrid x0 z0 x1 z1 chunkSize baseX baseZ).1,
        c.vx ≤ x ∧ x < c.vx + chunkSize ∧ c.vz ≤ z ∧ z < c.vz + chunkSize) ∧
    (∃ (cols rows : Nat) (startGx startGz : Int),
      (createGrid x0 z0 x1 z1 chunkSize baseX baseZ).1.length = rows * cols ∧
      ∀ j k : Nat, j < rows → k < cols →
        ∀ hidx : j * cols + k < (createGrid x0 z0 x1 z1 chunkSize baseX baseZ).1.length,
        (createGrid x0 z0 x1 z1 chunkSize baseX baseZ).1[j * cols + k] =
          { gx := startGx + k, gz := startGz + j
            vx := baseX + (startGx + k) * chunkSize
            vz := baseZ + (startGz + j) * chunkSize }) := by
  refine ⟨?_, ?_, ?_⟩
  · intro c hc
    simp only [createGrid, List.mem_flatMap, List.mem_map, List.mem_range] at hc
    obtain ⟨j, _, i, _, rfl⟩ := hc
    exact ⟨rfl, rfl⟩
  · intro x z hx0 hx1 hz0 hz1
    have hax0 : alignToChunk x0 baseX chunkSize true ≤ x0 := by
      have h := ediv_mul_le_self (x0 - baseX) hcs
      simp only [alignToChunk, if_pos, jsFloorDiv_eq_ediv _ hcs]
      linarith
    have hax1 : x1 ≤ alignToChunk x1 baseX chunkSize false := by
      have h := le_jsCeilDiv_mul (x1 - baseX) hcs
      simp only [alignToChunk, if_neg Bool.false_ne_true]
      linarith
    have haz0 : alignToChunk z0 baseZ chunkSize true ≤ z0 := by
      have h := ediv_mul_le_self (z0 - baseZ) hcs
      simp only [alignToChunk, if_pos, jsFloorDiv_eq_ediv _ hcs]
      linarith
    have haz1 : z1 ≤ alignToChunk z1 baseZ chunkSize false := by
      have h := le_jsCeilDiv_mul (z1 - baseZ) hcs
      simp only [alignToChunk, if_neg Bool.false_ne_true]
      linarith
    have hsgx_le : jsFloorDiv (alignToChunk x0 baseX chunkSize true - baseX) chunkSize ≤
        (x - baseX) / chunkSize := by
      rw [jsFloorDiv_eq_ediv _ hcs]
      exact Int.ediv_le_ediv hcs (by linarith)
    have hegx_ge : (x - baseX) / chunkSize ≤
        jsFloorDiv (alignToChunk x1 baseX chunkSize false + chunkSize - 1 - baseX) chunkSize := by
      rw [jsFloorDiv_eq_ediv _ hcs]
      exact Int.ediv_le_ediv hcs (by linarith)
    have hsgz_le : jsFloorDiv (alignToChunk z0 baseZ chunkSize true - baseZ) chunkSize ≤
        (z - baseZ) / chunkSize := by
      rw [jsFloorDiv_eq_ediv _ hcs]
      exact Int.ediv_le_ediv hcs (by linarith)
    have hegz_ge : (z - baseZ) / chunkSize ≤
        jsFloorDiv (alignToChunk z1 baseZ chunkSize false + chunkSize - 1 - baseZ) chunkSize := by
      rw [jsFloorDiv_eq_ediv _ hcs]
      exact Int.ediv_le_ediv hcs (by linarith)
    have hq1 := ediv_mul_le_self (x - baseX) hcs
    have hq2 := lt_ediv_mul_add (x - baseX) hcs
    have hq3 := ediv_mul_le_self (z - baseZ) hcs
    have hq4 := lt_ediv_mul_add (z - baseZ) hcs
    have E1 : jsFloorDiv (alignToChunk x0 baseX chunkSize true - baseX) chunkSize +
        ((((x - baseX) / chunkSize) -
          jsFloorDiv (alignToChunk x0 baseX chunkSize true - baseX) chunkSize).toNat : Int) =
        (x - baseX) / chunkSize := by omega
    have E2 : jsFloorDiv (alignToChunk z0 baseZ chunkSize true - baseZ) chunkSize +
        ((((z - baseZ) / chunkSize) -
          jsFloorDiv (alignToChunk z0 baseZ chunkSize true - baseZ) chunkSize).toNat : Int) =
        (z - baseZ) / chunkSize := by omega
    have hmem := mem_flatMap_range_map
      ((jsFloorDiv (alignToChunk x1 baseX chunkSize false + chunkSize - 1 - baseX) chunkSize -
        jsFloorDiv (alignToChunk x0 baseX chunkSize true - baseX) chunkSize + 1).toNat)
      ((jsFloorDiv (alignToChunk z1 baseZ chunkSize false + chunkSize - 1 - baseZ) chunkSize -
        jsFloorDiv (alignToChunk z0 baseZ chunkSize true - baseZ) chunkSize + 1).toNat)
      (fun (j i : Nat) =>
        ({ gx := jsFloorDiv (alignToChunk x0 baseX chunkSize true - baseX) chunkSize + (i : Int)
           gz := jsFloorDiv (alignToChunk z0 baseZ chunkSize true - baseZ) chunkSize + (j : Int)
           vx := baseX +
             (jsFloorDiv (alignToChunk x0 baseX chunkSize true - baseX) chunkSize + (i : Int)) *
               chunkSize
           vz := baseZ +
             (jsFloorDiv (alignToChunk z0 baseZ chunkSize true - baseZ) chunkSize + (j : Int)) *
               chunkSize } : Chunk))
      ((((z - baseZ) / chunkSize) -
        jsFloorDiv (alignToChunk z0 baseZ chunkSize true - baseZ) chunkSize).toNat)
      ((((x - baseX) / chunkSize) -
        jsFloorDiv (alignToChunk x0 baseX chunkSize true - baseX) chunkSize).toNat)
      (by omega) (by omega)
    simp only [createGrid]
    refine ⟨_, hmem, ?_, ?_, ?_, ?_⟩
    · dsimp only
      rw [E1]
      linarith
    · dsimp only
      rw [E1]
      linarith
    · dsimp only
      rw [E2]
      linarith
    · dsimp only
      rw [E2]
      linarith
  · simp only [createGrid]
    refine ⟨(jsFloorDiv (alignToChunk x1 baseX chunkSize false + chunkSize - 1 - baseX) chunkSize -
        jsFloorDiv (alignToChunk x0 baseX chunkSize true - baseX) chunkSize + 1).toNat,
      (jsFloorDiv (alignToChunk z1 baseZ chunkSize false + chunkSize - 1 - baseZ) chunkSize -
        jsFloorDiv (alignToChunk z0 baseZ chunkSize true - baseZ) chunkSize + 1).toNat,
      jsFloorDiv (alignToChunk x0 baseX chunkSize true - baseX) chunkSize,
      jsFloorDiv (alignToChunk z0 baseZ chunkSize true - baseZ) chunkSize,
      length_flatMap_range_map _ _ _, ?_⟩
    intro j k hj hk hidx
    have h1 := getElem?_flatMap_range_map
      ((jsFloorDiv (alignToChunk x1 baseX chunkSize false + chunkSize - 1 - baseX) chunkSize -
        jsFloorDiv (alignToChunk x0 baseX chunkSize true - baseX) chunkSize + 1).toNat)
      (fun (j i : Nat) =>
        ({ gx := jsFloorDiv (alignToChunk x0 baseX chunkSize true - baseX) chunkSize + (i : Int)
           gz := jsFloorDiv (alignToChunk z0 baseZ chunkSize true - baseZ) chunkSize + (j : Int)
           vx := baseX +
             (jsFloorDiv (alignToChunk x0 baseX chunkSize true - baseX) chunkSize + (i : Int)) *
               chunkSize
           vz := baseZ +
             (jsFloorDiv (alignToChunk z0 baseZ chunkSize true - baseZ) chunkSize + (j : Int)) *
               chunkSize } : Chunk))
      ((jsFloorDiv (alignToChunk z1 baseZ chunkSize false + chunkSize - 1 - baseZ) chunkSize -
        jsFloorDiv (alignToChunk z0 baseZ chunkSize true - baseZ) chunkSize + 1).toNat)
      j k hj hk
    rw [List.getElem?_eq_getElem hidx] at h1
    exact Option.some.inj h1

/-- Witness for C3 at the pipeline defaults. -/
theorem createGrid_covering_witness :
    (0 : Int) < 1024 ∧
    (∀ c ∈ (createGrid 0 0 10 10 1024 (-512) 0).1,
      c.vx = -512 + c.gx * 1024 ∧ c.vz = 0 + c.gz * 1024) :=
  ⟨by decide, (createGrid_covering 0 0 10 10 1024 (-512) 0 (by decide)).1⟩

theorem ediv_eq_of_decomp {a b q r : Int} (hb : 0 < b) (h : a = b * q + r)
    (h0 : 0 ≤ r) (h1 : r < b) : a / b = q :=
  ((Int.ediv_emod_unique hb).mpr ⟨by linarith, h0, h1⟩).1

theorem jsRoundDiv_zero {p : Int} (hp : 0 < p) : jsRoundDiv 0 p = 0 := by
  rw [jsRoundDiv, jsFloorDiv_eq_ediv _ (by linarith)]
  exact ediv_eq_of_decomp (by linarith) (by ring) (by linarith) (by linarith)

theorem jsRoundDiv_self {p : Int} (hp : 0 < p) : jsRoundDiv p p = 1 := by
  rw [jsRoundDiv, jsFloorDiv_eq_ediv _ (by linarith)]
  exact ediv_eq_of_decomp (by linarith) (by ring) (by linarith) (by linarith)

/-- C7: in `buildParentTile`, every composite drawn is placed at a quadrant
offset `(dx*half, dz*half)` inside the canvas (children failing the bound
check are skipped by `filterMap`, never a throw), and a child lying on the
aligned child grid whose group anchor is its own `parentCoord` gets
`dx, dz ∈ {0, 1}` and is never skipped. -/
theorem buildParentTile_aligned_children
    (p : Int) (hp : 0 < p) (g : MipGroup) (c : MipTile)
    (hgx : g.x = (parentCoord c.x c.z (2 * p)).1)
    (hgz : g.z = (parentCoord c.x c.z (2 * p)).2)
    (hax : (c.x - X_OFFSET) % p = 0) (haz : c.z % p = 0) :
    (∃ dx dz : Int, (dx = 0 ∨ dx = 1) ∧ (dz = 0 ∨ dz = 1) ∧
      childPlacement g p c = some (dx * (TILE_SIZE / 2), dz * (TILE_SIZE / 2))) ∧
    (∀ t l tp, (t, l, tp) ∈ buildParentTile g p →
      t ∈ g.children ∧ 0 ≤ l ∧ l ≤ TILE_SIZE / 2 ∧ 0 ≤ tp ∧ tp ≤ TILE_SIZE / 2 ∧
      childPlacement g p t = some (l, tp)) ∧
    (c ∈ g.children → ∃ l tp, (c, l, tp) ∈ buildParentTile g p) := by
  have h2p : (0 : Int) < 2 * p := by linarith
  have hsplitX := Int.ediv_add_emod (c.x - X_OFFSET) (2 * p)
  have hsplitZ := Int.ediv_add_emod c.z (2 * p)
  have hrx0 : 0 ≤ (c.x - X_OFFSET) % (2 * p) := Int.emod_nonneg _ (ne_of_gt h2p)
  have hrx1 : (c.x - X_OFFSET) % (2 * p) < 2 * p := Int.emod_lt_of_pos _ h2p
  have hrz0 : 0 ≤ c.z % (2 * p) := Int.emod_nonneg _ (ne_of_gt h2p)
  have hrz1 : c.z % (2 * p) < 2 * p := Int.emod_lt_of_pos _ h2p
  have hcx : c.x - g.x = (c.x - X_OFFSET) % (2 * p) := by
    rw [hgx]
    simp only [parentCoord, jsFloorDiv_eq_ediv _ h2p]
    linarith
  have hcz : c.z - g.z = c.z % (2 * p) := by
    rw [hgz]
    simp only [parentCoord, jsFloorDiv_eq_ediv _ h2p]
    linarith
  have hdvdx : p ∣ (c.x - X_OFFSET) % (2 * p) := by
    have h1 : p ∣ c.x - X_OFFSET := Int.dvd_of_emod_eq_zero hax
    have h2 : p ∣ 2 * p * ((c.x - X_OFFSET) / (2 * p)) := ⟨2 * ((c.x - X_OFFSET) / (2 * p)), by ring⟩
    have : (c.x - X_OFFSET) % (2 * p) = (c.x - X_OFFSET) - 2 * p * ((c.x - X_OFFSET) / (2 * p)) := by
      linarith
    rw [this]
    exact dvd_sub h1 h2
  have hdvdz : p ∣ c.z % (2 * p) := by
    have h1 : p ∣ c.z := Int.dvd_of_emod_eq_zero haz
    have h2 : p ∣ 2 * p * (c.z / (2 * p)) := ⟨2 * (c.z / (2 * p)), by ring⟩
    have : c.z % (2 * p) = c.z - 2 * p * (c.z / (2 * p)) := by linarith
    rw [this]
    exact dvd_sub h1 h2
  have hbin : ∀ r : Int, 0 ≤ r → r < 2 * p → p ∣ r → r = 0 ∨ r = p := by
    rintro r h0 h1 ⟨k, rfl⟩
    have hk0 : 0 ≤ k := nonneg_of_mul_nonneg_left (by linarith) hp
    have hk2 : k < 2 := by nlinarith
    interval_cases k
    · left; ring
    · right; ring
  have hdx : jsRoundDiv (c.x - g.x) p = 0 ∨ jsRoundDiv (c.x - g.x) p = 1 := by
    rcases hbin _ hrx0 hrx1 hdvdx with h | h
    · left; rw [hcx, h]; exact jsRoundDiv_zero hp
    · right; rw [hcx, h]; exact jsRoundDiv_self hp
  have hdz : jsRoundDiv (c.z - g.z) p = 0 ∨ jsRoundDiv (c.z - g.z) p = 1 := by
    rcases hbin _ hrz0 hrz1 hdvdz with h | h
    · left; rw [hcz, h]; exact jsRoundDiv_zero hp
    · right; rw [hcz, h]; exact jsRoundDiv_self hp
  have hplace : childPlacement g p c =
      some (jsRoundDiv (c.x - g.x) p * (TILE_SIZE / 2), jsRoundDiv (c.z - g.z) p * (TILE_SIZE / 2)) := by
    have hb : ∀ d : Int, d = 0 ∨ d = 1 →
        0 ≤ d * (TILE_SIZE / 2) ∧ d * (TILE_SIZE / 2) ≤ TILE_SIZE / 2 := by
      rintro d (rfl | rfl) <;> norm_num [TILE_SIZE]
    rw [childPlacement]
    rw [if_neg]
    push_neg
    exact ⟨(hb _ hdx).1, (hb _ hdx).2, (hb _ hdz).1, (hb _ hdz).2⟩
  refine ⟨⟨jsRoundDiv (c.x - g.x) p, jsRoundDiv (c.z - g.z) p, hdx, hdz, hplace⟩, ?_, ?_⟩
  · intro t l tp hmem
    rw [buildParentTile, List.mem_filterMap] at hmem
    obtain ⟨a, ha, hfa⟩ := hmem
    rcases hopt : childPlacement g p a with _ | pl
    · rw [hopt] at hfa; simp at hfa
    · rw [hopt] at hfa
      have hfa' : (a, pl.1, pl.2) = (t, l, tp) := by simpa using hfa
      obtain ⟨rfl, rfl, rfl⟩ : a = t ∧ pl.1 = l ∧ pl.2 = tp := by
        refine ⟨congrArg (fun q => q.1) hfa', congrArg (fun q => q.2.1) hfa',
          congrArg (fun q => q.2.2) hfa'⟩
      refine ⟨ha, ?_, ?_, ?_, ?_, by rw [hopt]⟩ <;>
      · rw [childPlacement] at hopt
        split_ifs at hopt with hcond
        push_neg at hcond
        simp only [Option.some.injEq] at hopt
        rw [← hopt]
        simp only [TILE_SIZE] at hcond ⊢
        omega
  · intro hc
    refine ⟨jsRoundDiv (c.x - g.x) p * (TILE_SIZE / 2), jsRoundDiv (c.z - g.z) p * (TILE_SIZE / 2), ?_⟩
    rw [buildParentTile, List.mem_filterMap]
    exact ⟨c, hc, by rw [hplace]; rfl⟩
/-- Witness for C7: the level-1 child at `(1536, 1024)` of the parent
anchored at `(512, 0)` is placed at quadrant `(512, 512)` and is drawn. -/
theorem buildParentTile_aligned_children_witness :
    (∃ dx dz : Int, (dx = 0 ∨ dx = 1) ∧ (dz = 0 ∨ dz = 1) ∧
      childPlacement ⟨512, 0, [⟨1536, 1024⟩]⟩ 1024 ⟨1536, 1024⟩ =
        some (dx * (TILE_SIZE / 2), dz * (TILE_SIZE / 2))) ∧
    (∃ l tp, ((⟨1536, 1024⟩ : MipTile), l, tp) ∈
      buildParentTile ⟨512, 0, [⟨1536, 1024⟩]⟩ 1024) :=
  have h := buildParentTile_aligned_children 1024 (by decide)
    ⟨512, 0, [⟨1536, 1024⟩]⟩ ⟨1536, 1024⟩ (by decide) (by decide) (by decide) (by decide)
  ⟨h.1, h.2.2 (by decide)⟩

theorem mipLoop_facts : ∀ (rem : Nat) (cur : List MipTile) (lv : Nat), 1 ≤ lv →
    (mipLoop cur lv rem).length ≤ rem ∧
    (∀ (i : Nat) (r : MipLevelRec), (mipLoop cur lv rem)[i]? = some r → r.level = lv + i) ∧
    (∀ r ∈ mipLoop cur lv rem,
      1 ≤ r.level ∧ r.worldSize = TILE_SIZE * 2 ^ r.level ∧ 1 ≤ r.count ∧
        r.count = r.tiles.length) ∧
    (∀ (i : Nat) (r : MipLevelRec), (mipLoop cur lv rem)[i]? = some r →
      i + 1 < (mipLoop cur lv rem).length → 2 ≤ r.count) := by
  intro rem
  induction rem with
  | zero =>
    intro cur lv hlv
    refine ⟨?_, ?_, ?_, ?_⟩ <;> simp [mipLoop]
  | succ rem ih =>
    intro cur lv hlv
    have hpow : TILE_SIZE * 2 ^ (lv - 1) * 2 = TILE_SIZE * 2 ^ lv := by
      rw [mul_assoc, ← pow_succ]
      congr 2
      omega
    by_cases h0 :
        ((groupByParent cur (TILE_SIZE * 2 ^ (lv - 1) * 2)).map
          fun g => ({ x := g.x, z := g.z } : MipTile)).length = 0
    · have hstep : mipLoop cur lv (rem + 1) = [] := by
        simp only [mipLoop]
        rw [if_pos h0]
      rw [hstep]
      refine ⟨?_, ?_, ?_, ?_⟩ <;> simp
    · by_cases h1 :
          ((groupByParent cur (TILE_SIZE * 2 ^ (lv - 1) * 2)).map
            fun g => ({ x := g.x, z := g.z } : MipTile)).length ≤ 1
      · have hstep : mipLoop cur lv (rem + 1) =
            [{ level := lv, worldSize := TILE_SIZE * 2 ^ (lv - 1) * 2
               count := ((groupByParent cur (TILE_SIZE * 2 ^ (lv - 1) * 2)).map
                 fun g => ({ x := g.x, z := g.z } : MipTile)).length
               tiles := (groupByParent cur (TILE_SIZE * 2 ^ (lv - 1) * 2)).map
                 fun g => ({ x := g.x, z := g.z } : MipTile) }] := by
          simp only [mipLoop]
          rw [if_neg h0, if_pos h1]
        rw [hstep]
        refine ⟨by simp, ?_, ?_, ?_⟩
        · intro i r hr
          match i with
          | 0 =>
            rw [List.getElem?_cons_zero, Option.some.injEq] at hr
            rw [← hr]
            rfl
          | Nat.succ n => simp at hr
        · intro r hr
          rw [List.mem_singleton] at hr
          subst hr
          exact ⟨hlv, by simpa using hpow,
            by simpa using Nat.one_le_iff_ne_zero.mpr h0, rfl⟩
        · intro i r hr hlen
          simp at hlen
      · have hstep : mipLoop cur lv (rem + 1) =
            { level := lv, worldSize := TILE_SIZE * 2 ^ (lv - 1) * 2
              count := ((groupByParent cur (TILE_SIZE * 2 ^ (lv - 1) * 2)).map
                fun g => ({ x := g.x, z := g.z } : MipTile)).length
              tiles := (groupByParent cur (TILE_SIZE * 2 ^ (lv - 1) * 2)).map
                fun g => ({ x := g.x, z := g.z } : MipTile) } ::
              mipLoop ((groupByParent cur (TILE_SIZE * 2 ^ (lv - 1) * 2)).map
                fun g => ({ x := g.x, z := g.z } : MipTile)) (lv + 1) rem := by
          simp only [mipLoop]
          rw [if_neg h0, if_neg h1]
        rw [hstep]
        obtain ⟨ihlen, ihlevel, ihmem, ihcount⟩ :=
          ih ((groupByParent cur (TILE_SIZE * 2 ^ (lv - 1) * 2)).map
            fun g => ({ x := g.x, z := g.z } : MipTile)) (lv + 1) (by omega)
        have hge2 : 2 ≤ ((groupByParent cur (TILE_SIZE * 2 ^ (lv - 1) * 2)).map
            fun g => ({ x := g.x, z := g.z } : MipTile)).length := by omega
        refine ⟨by simpa using ihlen, ?_, ?_, ?_⟩
        · intro i r hr
          match i with
          | 0 =>
            rw [List.getElem?_cons_zero, Option.some.injEq] at hr
            rw [← hr]
            rfl
          | Nat.succ n =>
            rw [List.getElem?_cons_succ] at hr
            have := ihlevel n r hr
            omega
        · intro r hr
          rcases List.mem_cons.mp hr with hr | hr
          · subst hr
            exact ⟨hlv, by simpa using hpow, Nat.le_trans (by omega) hge2, rfl⟩
          · exact ihmem r hr
        · intro i r hr hlen
          match i with
          | 0 =>
            rw [List.getElem?_cons_zero, Option.some.injEq] at hr
            rw [← hr]
            exact hge2
          | Nat.succ n =>
            rw [List.getElem?_cons_succ] at hr
            refine ihcount n r hr ?_
            simp only [List.length_cons] at hlen
            omega

/-- C8: the mip pyramid level loop terminates having produced at most
`maxLevels` levels above level 0; the recorded levels are exactly
`0, 1, 2, …` in order (so the manifest lists every completed level); every
generated level `L ≥ 1` has `worldSize = tileSize * 2^L` and at least one
tile (a level yielding no tiles stops unrecorded); every generated level
that is not the last has at least two tiles (the loop stops as soon as a
level yields 0 or 1 tiles); and a level yielding exactly one tile is still
recorded as the final level before stopping. -/
theorem mip_pyramid_levels (base : List MipTile) (maxLevels : Nat) :
    (buildLevels base maxLevels).length ≤ maxLevels + 1 ∧
    (∀ (i : Nat) (r : MipLevelRec), (buildLevels base maxLevels)[i]? = some r →
      r.level = i) ∧
    (∀ r ∈ buildLevels base maxLevels, 1 ≤ r.level →
      r.worldSize = TILE_SIZE * 2 ^ r.level ∧ 1 ≤ r.count ∧ r.count = r.tiles.length) ∧
    (∀ (i : Nat) (r : MipLevelRec), 1 ≤ i → (buildLevels base maxLevels)[i]? = some r →
      i + 1 < (buildLevels base maxLevels).length → 2 ≤ r.count) ∧
    (∀ (cur : List MipTile) (lv rem : Nat), 1 ≤ lv →
      ((groupByParent cur (TILE_SIZE * 2 ^ (lv - 1) * 2)).map
        fun g => ({ x := g.x, z := g.z } : MipTile)).length = 1 →
      mipLoop cur lv (rem + 1) =
        [{ level := lv, worldSize := TILE_SIZE * 2 ^ (lv - 1) * 2, count := 1,
           tiles := (groupByParent cur (TILE_SIZE * 2 ^ (lv - 1) * 2)).map
             fun g => ({ x := g.x, z := g.z } : MipTile) }]) := by
  obtain ⟨hlen, hlevel, hmem, hcount⟩ := mipLoop_facts maxLevels base 1 (by omega)
  refine ⟨?_, ?_, ?_, ?_, ?_⟩
  · simpa [buildLevels] using hlen
  · intro i r hr
    match i with
    | 0 =>
      rw [buildLevels, List.getElem?_cons_zero, Option.some.injEq] at hr
      rw [← hr]
    | Nat.succ n =>
      rw [buildLevels, List.getElem?_cons_succ] at hr
      have := hlevel n r hr
      omega
  · intro r hr h1
    rcases List.mem_cons.mp hr with hr | hr
    · subst hr
      simp at h1
    · exact (hmem r hr).2
  · intro i r hi1 hr hi2
    match i with
    | 0 => omega
    | Nat.succ n =>
      rw [buildLevels, List.getElem?_cons_succ] at hr
      refine hcount n r hr ?_
      rw [buildLevels] at hi2
      simp only [List.length_cons] at hi2
      omega
  · intro cur lv rem hlv hone
    have hstep : mipLoop cur lv (rem + 1) =
        [{ level := lv, worldSize := TILE_SIZE * 2 ^ (lv - 1) * 2
           count := ((groupByParent cur (TILE_SIZE * 2 ^ (lv - 1) * 2)).map
             fun g => ({ x := g.x, z := g.z } : MipTile)).length
           tiles := (groupByParent cur (TILE_SIZE * 2 ^ (lv - 1) * 2)).map
             fun g => ({ x := g.x, z := g.z } : MipTile) }] := by
      simp only [mipLoop]
      rw [if_neg (by omega), if_pos (by omega)]
    rw [hstep, hone]

/-- Witness for C8 on a concrete 2×2 base grid, whose level 1 collapses to a
single tile that is still recorded. -/
theorem mip_pyramid_levels_witness :
    (buildLevels [⟨512, 0⟩, ⟨1536, 0⟩, ⟨512, 1024⟩, ⟨1536, 1024⟩] 6).length ≤ 6 + 1 ∧
    mipLoop [⟨512, 0⟩, ⟨1536, 0⟩, ⟨512, 1024⟩, ⟨1536, 1024⟩] 1 (5 + 1) =
      [{ level := 1, worldSize := 2048, count := 1, tiles := [⟨512, 0⟩] }] :=
  ⟨(mip_pyramid_levels [⟨512, 0⟩, ⟨1536, 0⟩, ⟨512, 1024⟩, ⟨1536, 1024⟩] 6).1,
   (mip_pyramid_levels [⟨512, 0⟩, ⟨1536, 0⟩, ⟨512, 1024⟩, ⟨1536, 1024⟩] 6).2.2.2.2
     [⟨512, 0⟩, ⟨1536, 0⟩, ⟨512, 1024⟩, ⟨1536, 1024⟩] 1 5 (by omega) (by decide)⟩

/-! Ordering facts about the folder comparator (C4). -/

theorem keyLT_irrefl (a : String) : ¬keyLT a a := by
  rintro (h | ⟨_, h | ⟨_, h⟩⟩) <;> exact absurd h (lt_irrefl _)

theorem key_ne_of_keyLT {a b : String} (h : keyLT a b) :
    folderSortKey a ≠ folderSortKey b := by
  intro heq
  rw [keyLT, heq] at h
  exact keyLT_irrefl b (by rw [keyLT]; exact h)

theorem keyLT_trans {a b c : String} (h1 : keyLT a b) (h2 : keyLT b c) : keyLT a c := by
  rcases h1 with h1 | ⟨e1, h1 | ⟨e1', h1⟩⟩ <;> rcases h2 with h2 | ⟨e2, h2 | ⟨e2', h2⟩⟩
  · exact Or.inl (lt_trans h1 h2)
  · exact Or.inl (e2 ▸ h1)
  · exact Or.inl (e2 ▸ h1)
  · exact Or.inl (e1 ▸ h2)
  · exact Or.inr ⟨e1.trans e2, Or.inl (lt_trans h1 h2)⟩
  · exact Or.inr ⟨e1.trans e2, Or.inl (e2' ▸ h1)⟩
  · exact Or.inl (e1 ▸ h2)
  · exact Or.inr ⟨e1.trans e2, Or.inl (e1' ▸ h2)⟩
  · exact Or.inr ⟨e1.trans e2, Or.inr ⟨e1'.trans e2', lt_trans h1 h2⟩⟩

theorem keyLT_of_keyLT_of_keyLE {a b c : String} (h1 : keyLT a b) (h2 : keyLE b c) :
    keyLT a c := by
  rcases h2 with h2 | h2
  · exact keyLT_trans h1 h2
  · rw [keyLT, ← h2]
    exact h1

theorem keyLE_trans {a b c : String} (h1 : keyLE a b) (h2 : keyLE b c) : keyLE a c := by
  rcases h1 with h1 | h1
  · exact Or.inl (keyLT_of_keyLT_of_keyLE h1 h2)
  · rcases h2 with h2 | h2
    · exact Or.inl (by rw [keyLT, h1]; exact h2)
    · exact Or.inr (h1.trans h2)

theorem keyLE_of_not_keyLT {a b : String} (h : ¬keyLT a b) : keyLE b a := by
  rcases lt_trichotomy (folderSortKey a).1 (folderSortKey b).1 with h1 | h1 | h1
  · exact absurd (Or.inl h1) h
  · rcases lt_trichotomy (folderSortKey a).2.1 (folderSortKey b).2.1 with h2 | h2 | h2
    · exact absurd (Or.inr ⟨h1, Or.inl h2⟩) h
    · rcases lt_trichotomy (folderSortKey a).2.2 (folderSortKey b).2.2 with h3 | h3 | h3
      · exact absurd (Or.inr ⟨h1, Or.inr ⟨h2, h3⟩⟩) h
      · exact Or.inr (Prod.ext h1.symm (Prod.ext h2.symm h3.symm))
      · exact Or.inl (Or.inr ⟨h1.symm, Or.inr ⟨h2.symm, h3⟩⟩)
    · exact Or.inl (Or.inr ⟨h1.symm, Or.inl h2⟩)
  · exact Or.inl (Or.inl h1)

theorem keyLE_total (a b : String) : keyLE a b ∨ keyLE b a := by
  by_cases h : keyLT a b
  · exact Or.inl (Or.inl h)
  · exact Or.inr (keyLE_of_not_keyLT h)

/-- `compareFolderName a b < 0` holds exactly when the key of `a` is
lexicographically below the key of `b`. -/
theorem compareFolderName_neg_iff (a b : String) :
    compareFolderName a b < 0 ↔ keyLT a b := by
  rw [compareFolderName, keyLT]
  split_ifs with h1 h2 h3 h4
  · constructor
    · intro h
      exact Or.inl (by omega)
    · rintro (h | ⟨e, _⟩)
      · omega
      · exact absurd e h1
  · constructor
    · intro h
      exact Or.inr ⟨by omega, Or.inl (by omega)⟩
    · rintro (h | ⟨e, h | ⟨e', h⟩⟩)
      · omega
      · omega
      · exact absurd e' h2
  · constructor
    · intro _
      exact Or.inr ⟨by omega, Or.inr ⟨by omega, h3⟩⟩
    · intro _
      norm_num
  · constructor
    · intro h
      norm_num at h
    · rintro (h | ⟨e, h | ⟨e', h⟩⟩)
      · omega
      · omega
      · exact absurd h h3
  · constructor
    · intro h
      norm_num at h
    · rintro (h | ⟨e, h | ⟨e', h⟩⟩)
      · omega
      · omega
      · exact absurd h h3

theorem compareFolderName_eq_key (a b : String) (h : ¬compareFolderName a b < 0) :
    keyLE b a :=
  keyLE_of_not_keyLT (fun hk => h ((compareFolderName_neg_iff a b).mpr hk))

theorem insertByCmp_perm (a : String) (l : List String) :
    (insertByCmp compareFolderName a l).Perm (a :: l) := by
  induction l with
  | nil => simp [insertByCmp]
  | cons b bs ih =>
    rw [insertByCmp]
    split_ifs with h
    · exact List.Perm.refl _
    · exact (ih.cons b).trans (List.Perm.swap a b bs)

theorem insertByCmp_pairwise (a : String) (l : List String) (h : l.Pairwise keyLE) :
    (insertByCmp compareFolderName a l).Pairwise keyLE := by
  induction l with
  | nil => simp [insertByCmp, List.pairwise_cons]
  | cons b bs ih =>
    rw [List.pairwise_cons] at h
    rw [insertByCmp]
    split_ifs with hlt
    · have hab : keyLT a b := (compareFolderName_neg_iff a b).mp hlt
      refine List.pairwise_cons.mpr ⟨?_, List.pairwise_cons.mpr ⟨h.1, h.2⟩⟩
      intro c hc
      rcases List.mem_cons.mp hc with rfl | hc
      · exact Or.inl hab
      · exact Or.inl (keyLT_of_keyLT_of_keyLE hab (h.1 c hc))
    · have hba : keyLE b a := compareFolderName_eq_key a b hlt
      refine List.pairwise_cons.mpr ⟨?_, ih h.2⟩
      intro c hc
      rcases List.mem_cons.mp ((insertByCmp_perm a bs).mem_iff.mp hc) with rfl | hc
      · exact hba
      · exact h.1 c hc

theorem foldl_insert_perm :
    ∀ (l acc : List String),
      (l.foldl (fun acc a => insertByCmp compareFolderName a acc) acc).Perm (acc ++ l) := by
  intro l
  induction l with
  | nil => intro acc; simp
  | cons x l ih =>
    intro acc
    refine (ih _).trans ?_
    exact ((insertByCmp_perm x acc).append_right l).trans List.perm_middle.symm

theorem foldl_insert_pairwise :
    ∀ (l acc : List String), acc.Pairwise keyLE →
      (l.foldl (fun acc a => insertByCmp compareFolderName a acc) acc).Pairwise keyLE := by
  intro l
  induction l with
  | nil => intro acc h; exact h
  | cons x l ih =>
    intro acc h
    exact ih _ (insertByCmp_pairwise x acc h)

theorem filter_insertByCmp_same (K : Nat × Int × String) (a : String) :
    ∀ l : List String, l.Pairwise keyLE → folderSortKey a = K →
      (insertByCmp compareFolderName a l).filter (fun x => decide (folderSortKey x = K)) =
        l.filter (fun x => decide (folderSortKey x = K)) ++ [a] := by
  intro l
  induction l with
  | nil =>
    intro _ hK
    simp [insertByCmp, hK]
  | cons b bs ih =>
    intro hp hK
    rw [List.pairwise_cons] at hp
    rw [insertByCmp]
    split_ifs with hlt
    · have hab : keyLT a b := (compareFolderName_neg_iff a b).mp hlt
      have hnil : (b :: bs).filter (fun x => decide (folderSortKey x = K)) = [] := by
        rw [List.filter_eq_nil_iff]
        intro c hc
        simp only [decide_eq_true_eq]
        rcases List.mem_cons.mp hc with rfl | hc
        · intro he
          exact key_ne_of_keyLT hab (hK.trans he.symm)
        · intro he
          exact key_ne_of_keyLT (keyLT_of_keyLT_of_keyLE hab (hp.1 c hc)) (hK.trans he.symm)
      rw [List.filter_cons_of_pos (by simp [hK]), hnil]
      simp
    · rw [List.filter_cons, List.filter_cons, ih hp.2 hK]
      split_ifs
      · simp
      · rfl

theorem filter_insertByCmp_other (K : Nat × Int × String) (a : String)
    (hK : folderSortKey a ≠ K) :
    ∀ l : List String,
      (insertByCmp compareFolderName a l).filter (fun x => decide (folderSortKey x = K)) =
        l.filter (fun x => decide (folderSortKey x = K)) := by
  intro l
  induction l with
  | nil => simp [insertByCmp, hK]
  | cons b bs ih =>
    rw [insertByCmp]
    split_ifs with hlt
    · rw [List.filter_cons_of_neg (by simp [hK])]
    · rw [List.filter_cons, List.filter_cons, ih]

theorem foldl_insert_filter (K : Nat × Int × String) :
    ∀ (l acc : List String), acc.Pairwise keyLE →
      (l.foldl (fun acc a => insertByCmp compareFolderName a acc) acc).filter
          (fun x => decide (folderSortKey x = K)) =
        acc.filter (fun x => decide (folderSortKey x = K)) ++
          l.filter (fun x => decide (folderSortKey x = K)) := by
  intro l
  induction l with
  | nil =>
    intro acc _
    simp
  | cons x l ih =>
    intro acc h
    rw [List.foldl_cons, ih _ (insertByCmp_pairwise x acc h)]
    by_cases hxK : folderSortKey x = K
    · rw [filter_insertByCmp_same K x acc h hxK, List.filter_cons_of_pos (by simp [hxK])]
      simp
    · rw [filter_insertByCmp_other K x hxK acc, List.filter_cons_of_neg (by simp [hxK])]

/-- C4: `getFolders` keeps exactly the non-hidden `map*` directory names and
orders them totally: numbered folders by descending numeric suffix, suffix
ties by lowercased name, un-suffixed folders after all numbered ones and
ordered among themselves by lowercased name; the underlying key order is
total, and the sort is stable (names with equal sort keys keep their
directory-listing order). -/
theorem getFolders_priority_order (subdirNames : List String) :
    (getFolders subdirNames).Perm
      (subdirNames.filter fun n =>
        !startsWithChars ['.'] n.data && startsWithChars ['m', 'a', 'p'] (lowerStr n).data) ∧
    (getFolders subdirNames).Pairwise (fun a b =>
      (∀ sa sb : Nat, parseMapSuffix a = some sa → parseMapSuffix b = some sb →
        sb < sa ∨ (sa = sb ∧ lowerStr a ≤ lowerStr b)) ∧
      (parseMapSuffix a = none → parseMapSuffix b = none) ∧
      (parseMapSuffix a = none → parseMapSuffix b = none → lowerStr a ≤ lowerStr b)) ∧
    (∀ a b : String, keyLE a b ∨ keyLE b a) ∧
    (∀ K : Nat × Int × String,
      (getFolders subdirNames).filter (fun x => decide (folderSortKey x = K)) =
        (subdirNames.filter fun n =>
        !startsWithChars ['.'] n.data && startsWithChars ['m', 'a', 'p'] (lowerStr n).data).filter
          (fun x => decide (folderSortKey x = K))) := by
  refine ⟨?_, ?_, keyLE_total, ?_⟩
  · simpa [getFolders, sortByCmp] using
      foldl_insert_perm
        (subdirNames.filter fun n =>
        !startsWithChars ['.'] n.data && startsWithChars ['m', 'a', 'p'] (lowerStr n).data) []
  · have hp : (getFolders subdirNames).Pairwise keyLE :=
      foldl_insert_pairwise
        (subdirNames.filter fun n =>
        !startsWithChars ['.'] n.data && startsWithChars ['m', 'a', 'p'] (lowerStr n).data) []
        (by simp)
    refine hp.imp ?_
    intro a b hab
    refine ⟨?_, ?_, ?_⟩
    · intro sa sb hsa hsb
      have hka : folderSortKey a = (0, -(sa : Int), lowerStr a) := by
        rw [folderSortKey, hsa]
      have hkb : folderSortKey b = (0, -(sb : Int), lowerStr b) := by
        rw [folderSortKey, hsb]
      rcases hab with hab | hab
      · rcases hab with h | ⟨e, h | ⟨e', h⟩⟩
        · rw [hka, hkb] at h
          simp at h
        · rw [hka, hkb] at h
          simp at h
          left
          omega
        · rw [hka, hkb] at e' h
          simp at e'
          dsimp only at h
          right
          exact ⟨by omega, le_of_lt h⟩
      · rw [hka, hkb] at hab
        have h1 := congrArg (fun p : Nat × Int × String => p.2.1) hab
        have h2 := congrArg (fun p : Nat × Int × String => p.2.2) hab
        simp at h1 h2
        right
        exact ⟨by omega, le_of_eq h2⟩
    · intro hna
      have hka : folderSortKey a = (1, 0, lowerStr a) := by
        rw [folderSortKey, hna]
      rcases hopt : parseMapSuffix b with _ | sb
      · rfl
      · exfalso
        have hkb : folderSortKey b = (0, -(sb : Int), lowerStr b) := by
          rw [folderSortKey, hopt]
        rcases hab with hab | hab
        · rcases hab with h | ⟨e, _⟩
          · rw [hka, hkb] at h
            simp at h
          · rw [hka, hkb] at e
            simp at e
        · rw [hka, hkb] at hab
          have h1 := congrArg (fun p : Nat × Int × String => p.1) hab
          simp at h1
    · intro hna hnb
      have hka : folderSortKey a = (1, 0, lowerStr a) := by
        rw [folderSortKey, hna]
      have hkb : folderSortKey b = (1, 0, lowerStr b) := by
        rw [folderSortKey, hnb]
      rcases hab with hab | hab
      · rcases hab with h | ⟨e, h | ⟨e', h⟩⟩
        · rw [hka, hkb] at h
          simp at h
        · rw [hka, hkb] at h
          simp at h
        · rw [hka, hkb] at h
          dsimp only at h
          exact le_of_lt h
      · rw [hka, hkb] at hab
        have h2 := congrArg (fun p : Nat × Int × String => p.2.2) hab
        simp at h2
        exact le_of_eq h2
  · intro K
    simpa [getFolders, sortByCmp] using
      foldl_insert_filter K
        (subdirNames.filter fun n =>
        !startsWithChars ['.'] n.data && startsWithChars ['m', 'a', 'p'] (lowerStr n).data) []
        (by simp)

/-! Cache de-duplication facts (C6). -/

theorem evictOldest_eq_drop {K : Type} (m : Nat) :
    ∀ l : List (K × Nat), evictOldest m l = l.drop (l.length - m) := by
  intro l
  induction l with
  | nil => simp [evictOldest]
  | cons e rest ih =>
    rw [evictOldest]
    split_ifs with h
    · rw [ih]
      have hl : (e :: rest).length - m = (rest.length - m) + 1 := by
        simp only [List.length_cons]
        omega
      rw [hl, List.drop_succ_cons]
    · have hl : (e :: rest).length - m = 0 := by
        simp only [List.length_cons]
        omega
      rw [hl, List.drop_zero]

theorem mapGet_eq_none_iff {K : Type} [DecidableEq K] (k : K) :
    ∀ l : List (K × Nat), mapGet k l = none ↔ ∀ e ∈ l, e.1 ≠ k := by
  intro l
  induction l with
  | nil => simp [mapGet]
  | cons e rest ih =>
    by_cases h : e.1 = k
    · constructor
      · intro hc
        simp [mapGet, h] at hc
      · intro hall
        exact absurd h (hall e (by simp))
    · simp only [mapGet, if_neg h, ih]
      constructor
      · intro hall e' he'
        rcases List.mem_cons.mp he' with rfl | he'
        · exact h
        · exact hall e' he'
      · intro hall e' he'
        exact hall e' (List.mem_cons_of_mem _ he')

theorem mapGet_append_self {K : Type} [DecidableEq K] (k : K) (v : Nat) :
    ∀ l : List (K × Nat), mapGet k l = none → mapGet k (l ++ [(k, v)]) = some v := by
  intro l
  induction l with
  | nil =>
    intro _
    simp [mapGet]
  | cons e rest ih =>
    intro h
    have he : ¬e.1 = k := by
      intro hc
      simp [mapGet, hc] at h
    simp only [List.cons_append, mapGet, if_neg he]
    apply ih
    simpa [mapGet, he] using h

theorem mapGet_drop_none {K : Type} [DecidableEq K] (k : K) (n : Nat)
    (l : List (K × Nat)) (h : mapGet k l = none) : mapGet k (l.drop n) = none := by
  rw [mapGet_eq_none_iff] at h ⊢
  intro e he
  exact h e (List.mem_of_mem_drop he)

theorem loadRgbTile_miss_cache {K : Type} [DecidableEq K] (tc : TileCache K) (key : K)
    (hm : 1 ≤ tc.maxSize) (h : mapGet key tc.cache = none) :
    mapGet key (tc.loadRgbTile key).1.cache = some tc.nextPromise := by
  simp only [TileCache.loadRgbTile, h]
  rw [evictOldest_eq_drop]
  have hlen : (tc.cache ++ [(key, tc.nextPromise)]).length - tc.maxSize ≤ tc.cache.length := by
    simp only [List.length_append, List.length_cons, List.length_nil]
    omega
  rw [List.drop_append_of_le_length hlen]
  exact mapGet_append_self key _ _ (mapGet_drop_none key _ _ h)

/-- C6 (amended): `loadRgbTile` de-duplicates while the key's promise is still
cached — a request finding `(key, v)` in the map returns the very promise `v`
(hence the same decoded buffer) without starting a new decode; a request for
an absent key starts exactly one decode; and with capacity at least 1, two
consecutive requests for the same key share a single decode. The
de-duplication holds only while the entry survives LRU eviction: see the
eviction counterexample for the claim as originally stated. -/
theorem loadRgbTile_dedup {K : Type} [DecidableEq K] (tc : TileCache K) (key : K) :
    (∀ v, mapGet key tc.cache = some v →
      (tc.loadRgbTile key).2 = v ∧ (tc.loadRgbTile key).1.decodeLog = tc.decodeLog) ∧
    (mapGet key tc.cache = none →
      (tc.loadRgbTile key).2 = tc.nextPromise ∧
      (tc.loadRgbTile key).1.decodeLog = tc.decodeLog ++ [(key, tc.nextPromise)]) ∧
    (1 ≤ tc.maxSize → mapGet key tc.cache = none →
      ((tc.loadRgbTile key).1.loadRgbTile key).2 = (tc.loadRgbTile key).2 ∧
      ((tc.loadRgbTile key).1.loadRgbTile key).1.decodeLog =
        (tc.loadRgbTile key).1.decodeLog) := by
  refine ⟨?_, ?_, ?_⟩
  · intro v hv
    constructor <;> simp only [TileCache.loadRgbTile, hv]
  · intro h
    constructor <;> simp only [TileCache.loadRgbTile, h]
  · intro hm h
    have hget := loadRgbTile_miss_cache tc key hm h
    have e1 : tc.loadRgbTile key =
        ({ maxSize := tc.maxSize
           cache := evictOldest tc.maxSize (tc.cache ++ [(key, tc.nextPromise)])
           nextPromise := tc.nextPromise + 1
           decodeLog := tc.decodeLog ++ [(key, tc.nextPromise)] }, tc.nextPromise) := by
      simp only [TileCache.loadRgbTile, h]
    rw [e1] at hget ⊢
    constructor <;> simp only [TileCache.loadRgbTile] <;> rw [hget]

/-- Witness for the amended C6: two consecutive requests for key `7` on a
fresh capacity-256 cache share one promise and one logged decode. -/
theorem loadRgbTile_dedup_witness :
    (((TileCache.init Nat 256).loadRgbTile 7).1.loadRgbTile 7).2 =
      ((TileCache.init Nat 256).loadRgbTile 7).2 ∧
    (((TileCache.init Nat 256).loadRgbTile 7).1.loadRgbTile 7).1.decodeLog =
      ((TileCache.init Nat 256).loadRgbTile 7).1.decodeLog :=
  (loadRgbTile_dedup (TileCache.init Nat 256) 7).2.2 (by decide) (by decide)

set_option maxRecDepth 100000 in
set_option maxHeartbeats 4000000 in
/-- Counterexample to C6 as stated: with the pipeline's capacity of 256, a
request for `("tile.png", 1024)`, followed by 256 requests for distinct other
keys (all of which may happen while the first decode is still pending —
eviction does not await resolution), followed by a second request for
`("tile.png", 1024)`, logs two decodes for that key: the first entry is
evicted while in flight, so the later caller does not share the first decode
(it gets promise 257, not promise 0). -/
theorem loadRgbTile_eviction_counterexample :
    ((TileCache.runLoads (TileCache.init (String × Nat) 256)
      ((("tile.png", 1024) :: (List.range 256).map fun i => ("x", i)) ++
        [("tile.png", 1024)])).1.decodeLog.filter fun e =>
          decide (e.1 = ("tile.png", 1024))).length = 2 ∧
    (TileCache.runLoads (TileCache.init (String × Nat) 256)
      ((("tile.png", 1024) :: (List.range 256).map fun i => ("x", i)) ++
        [("tile.png", 1024)])).2.head? = some 0 ∧
    (TileCache.runLoads (TileCache.init (String × Nat) 256)
      ((("tile.png", 1024) :: (List.range 256).map fun i => ("x", i)) ++
        [("tile.png", 1024)])).2.getLast? = some 257 := by
  refine ⟨by decide, by decide, by decide⟩



theorem copyRow_apply (img : Img) (c : Canvas) (sX sY dX dY : Nat) :
    ∀ (w x y : Nat),
      (copyRow img c sX sY dX dY w).1 (x, y) =
        if dX ≤ x ∧ x < dX + w ∧ y = dY ∧ img (sX + (x - dX), sY) ≠ sentinel
        then img (sX + (x - dX), sY) else c (x, y) := by
  intro w
  induction w with
  | zero =>
    intro x y
    rw [copyRow, if_neg]
    rintro ⟨h1, h2, -⟩
    omega
  | succ w ih =>
    intro x y
    simp only [copyRow]
    by_cases hs : img (sX + w, sY) = sentinel
    · rw [if_pos hs, ih]
      by_cases hC : dX ≤ x ∧ x < dX + w ∧ y = dY ∧ img (sX + (x - dX), sY) ≠ sentinel
      · rw [if_pos hC, if_pos ⟨hC.1, by omega, hC.2.2⟩]
      · rw [if_neg hC, if_neg]
        rintro ⟨h1, h2, h3, h4⟩
        have hxw : x ≠ dX + w := by
          intro he
          have hsub : x - dX = w := by omega
          rw [hsub] at h4
          exact h4 hs
        exact hC ⟨h1, by omega, h3, h4⟩
    · rw [if_neg hs]
      dsimp only
      by_cases hxy : (x, y) = (dX + w, dY)
      · have hx : x = dX + w := congrArg Prod.fst hxy
        have hy : y = dY := congrArg Prod.snd hxy
        subst hx
        subst hy
        rw [Function.update_same]
        have he : dX + w - dX = w := by omega
        rw [if_pos ⟨by omega, by omega, rfl, by rw [he]; exact hs⟩, he]
      · rw [Function.update_noteq hxy, ih]
        by_cases hC : dX ≤ x ∧ x < dX + w ∧ y = dY ∧ img (sX + (x - dX), sY) ≠ sentinel
        · rw [if_pos hC, if_pos ⟨hC.1, by omega, hC.2.2⟩]
        · rw [if_neg hC, if_neg]
          rintro ⟨h1, h2, h3, h4⟩
          have hxw : x ≠ dX + w := by
            intro he
            exact hxy (by rw [he, h3])
          exact hC ⟨h1, by omega, h3, h4⟩

theorem copyRect_apply (img : Img) (c : Canvas) (sX sY dX dY w : Nat) :
    ∀ (h x y : Nat),
      (copyRect img c sX sY dX dY w h).1 (x, y) =
        if dX ≤ x ∧ x < dX + w ∧ dY ≤ y ∧ y < dY + h ∧
            img (sX + (x - dX), sY + (y - dY)) ≠ sentinel
        then img (sX + (x - dX), sY + (y - dY)) else c (x, y) := by
  intro h
  induction h with
  | zero =>
    intro x y
    rw [copyRect, if_neg]
    rintro ⟨-, -, h3, h4, -⟩
    omega
  | succ h ih =>
    intro x y
    simp only [copyRect]
    rw [copyRow_apply, ih]
    by_cases hy : y = dY + h
    · subst hy
      have he : dY + h - dY = h := by omega
      rw [he]
      by_cases hrow : dX ≤ x ∧ x < dX + w ∧ img (sX + (x - dX), sY + h) ≠ sentinel
      · rw [if_pos ⟨hrow.1, hrow.2.1, rfl, hrow.2.2⟩,
          if_pos ⟨hrow.1, hrow.2.1, by omega, by omega, hrow.2.2⟩]
      · rw [if_neg (fun hA => hrow ⟨hA.1, hA.2.1, hA.2.2.2⟩),
          if_neg (by rintro ⟨-, -, -, h4, -⟩; omega),
          if_neg (fun hB => hrow ⟨hB.1, hB.2.1, hB.2.2.2.2⟩)]
    · rw [if_neg (by rintro ⟨-, -, h3, -⟩; exact hy h3)]
      by_cases hC : dX ≤ x ∧ x < dX + w ∧ dY ≤ y ∧ y < dY + h ∧
          img (sX + (x - dX), sY + (y - dY)) ≠ sentinel
      · rw [if_pos hC, if_pos ⟨hC.1, hC.2.1, hC.2.2.1, by omega, hC.2.2.2.2⟩]
      · rw [if_neg hC, if_neg]
        rintro ⟨h1, h2, h3, h4, h5⟩
        exact hC ⟨h1, h2, h3, by omega, h5⟩

theorem copyRow_sentinel (img : Img) (c : Canvas) (sX sY dX dY : Nat) :
    ∀ w : Nat, (∀ k, k < w → img (sX + k, sY) = sentinel) →
      copyRow img c sX sY dX dY w = (c, false) := by
  intro w
  induction w with
  | zero =>
    intro _
    rfl
  | succ w ih =>
    intro hall
    simp only [copyRow]
    rw [ih (fun k hk => hall k (by omega)), if_pos (hall w (by omega))]

theorem copyRect_sentinel (img : Img) (c : Canvas) (sX sY dX dY w : Nat) :
    ∀ h : Nat, (∀ j k, j < h → k < w → img (sX + k, sY + j) = sentinel) →
      copyRect img c sX sY dX dY w h = (c, false) := by
  intro h
  induction h with
  | zero =>
    intro _
    rfl
  | succ h ih =>
    intro hall
    simp only [copyRect]
    rw [ih (fun j k hj hk => hall j k (by omega) hk),
      copyRow_sentinel img c sX (sY + h) dX (dY + h) w (fun k hk => hall h k (by omega) hk)]
    rfl

theorem getLast?_cons_getD {α : Type} (a d : α) (l : List α) :
    (a :: l).getLast?.getD d = l.getLast?.getD a := by
  cases l with
  | nil => rfl
  | cons b bs =>
    rw [List.getLast?_cons_cons]
    have h := List.getLast?_eq_getLast (b :: bs) (by simp)
    rw [h]
    rfl

theorem writesAt_append (images : String → Img) (l1 l2 : List TileRef) (wx wz : Int) :
    writesAt images (l1 ++ l2) wx wz = writesAt images l1 wx wz ++ writesAt images l2 wx wz :=
  List.filterMap_append l1 l2 _

theorem foldl_flatMap_eq {α β γ : Type} (f : α → List β) (g : γ → β → γ) :
    ∀ (l : List α) (acc : γ),
      (l.flatMap f).foldl g acc = l.foldl (fun acc a => (f a).foldl g acc) acc := by
  intro l
  induction l with
  | nil => intro acc; rfl
  | cons a l ih =>
    intro acc
    rw [List.flatMap_cons, List.foldl_append, List.foldl_cons, ih]

theorem mergeTile_apply (images : String → Img) (chunkX0 chunkZ0 : Int) (tileSize : Nat)
    (acc : MergeAcc) (t : TileRef) (cx cy : Nat) (hcx : cx < tileSize) (hcy : cy < tileSize) :
    (mergeTile images chunkX0 chunkZ0 (chunkX0 + (tileSize : Int) - 1)
        (chunkZ0 + (tileSize : Int) - 1) acc t).canvas (cx, cy) =
      (tileWrite images (chunkX0 + cx) (chunkZ0 + cy) t).getD (acc.canvas (cx, cy)) := by
  rcases hint : rectIntersection chunkX0 chunkZ0 (chunkX0 + (tileSize : Int) - 1)
      (chunkZ0 + (tileSize : Int) - 1) t.x0 t.z0 t.x1 t.z1 with _ | ⟨ix0, iz0, ix1, iz1⟩
  · have hcov : ¬(t.x0 ≤ chunkX0 + cx ∧ chunkX0 + cx ≤ t.x1 ∧
        t.z0 ≤ chunkZ0 + cy ∧ chunkZ0 + cy ≤ t.z1) := by
      rintro ⟨h1, h2, h3, h4⟩
      rw [rectIntersection] at hint
      split_ifs at hint with hgt
      rcases hgt with hgt | hgt <;> omega
    simp only [mergeTile, hint]
    rw [tileWrite, if_neg hcov]
    rfl
  · have hfacts : ix0 = max chunkX0 t.x0 ∧ iz0 = max chunkZ0 t.z0 ∧
        ix1 = min (chunkX0 + (tileSize : Int) - 1) t.x1 ∧
        iz1 = min (chunkZ0 + (tileSize : Int) - 1) t.z1 ∧ ix0 ≤ ix1 ∧ iz0 ≤ iz1 := by
      rw [rectIntersection] at hint
      split_ifs at hint with hgt
      push_neg at hgt
      cases hint
      exact ⟨rfl, rfl, rfl, rfl, by omega, by omega⟩
    obtain ⟨hix0, hiz0, hix1, hiz1, hxle, hzle⟩ := hfacts
    simp only [mergeTile, hint]
    rw [copyRect_apply]
    by_cases hcov : t.x0 ≤ chunkX0 + cx ∧ chunkX0 + cx ≤ t.x1 ∧
        t.z0 ≤ chunkZ0 + cy ∧ chunkZ0 + cy ≤ t.z1
    · have hEx : (ix0 - t.x0).toNat + (cx - (ix0 - chunkX0).toNat) =
          ((chunkX0 + cx) - t.x0).toNat := by omega
      have hEy : (iz0 - t.z0).toNat + (cy - (iz0 - chunkZ0).toNat) =
          ((chunkZ0 + cy) - t.z0).toNat := by omega
      rw [hEx, hEy]
      by_cases hq : images t.filePath
          (((chunkX0 + cx) - t.x0).toNat, ((chunkZ0 + cy) - t.z0).toNat) = sentinel
      · rw [if_neg (fun hA => hA.2.2.2.2 hq), tileWrite, if_pos hcov, if_pos hq]
        rfl
      · rw [if_pos ⟨by omega, by omega, by omega, by omega, hq⟩,
          tileWrite, if_pos hcov, if_neg hq]
        rfl
    · rw [if_neg (by
        rintro ⟨hA1, hA2, hA3, hA4, -⟩
        exact hcov ⟨by omega, by omega, by omega, by omega⟩), tileWrite, if_neg hcov]
      rfl

theorem mergeTile_sentinel (images : String → Img) (chunkX0 chunkZ0 : Int) (tileSize : Nat)
    (acc : MergeAcc) (t : TileRef)
    (hall : ∀ wx wz : Int, t.x0 ≤ wx → wx ≤ t.x1 → t.z0 ≤ wz → wz ≤ t.z1 →
      chunkX0 ≤ wx → wx ≤ chunkX0 + (tileSize : Int) - 1 →
      chunkZ0 ≤ wz → wz ≤ chunkZ0 + (tileSize : Int) - 1 →
      images t.filePath ((wx - t.x0).toNat, (wz - t.z0).toNat) = sentinel) :
    mergeTile images chunkX0 chunkZ0 (chunkX0 + (tileSize : Int) - 1)
      (chunkZ0 + (tileSize : Int) - 1) acc t = acc := by
  rcases hint : rectIntersection chunkX0 chunkZ0 (chunkX0 + (tileSize : Int) - 1)
      (chunkZ0 + (tileSize : Int) - 1) t.x0 t.z0 t.x1 t.z1 with _ | ⟨ix0, iz0, ix1, iz1⟩
  · simp only [mergeTile, hint]
  · have hfacts : ix0 = max chunkX0 t.x0 ∧ iz0 = max chunkZ0 t.z0 ∧
        ix1 = min (chunkX0 + (tileSize : Int) - 1) t.x1 ∧
        iz1 = min (chunkZ0 + (tileSize : Int) - 1) t.z1 ∧ ix0 ≤ ix1 ∧ iz0 ≤ iz1 := by
      rw [rectIntersection] at hint
      split_ifs at hint with hgt
      push_neg at hgt
      cases hint
      exact ⟨rfl, rfl, rfl, rfl, by omega, by omega⟩
    obtain ⟨hix0, hiz0, hix1, hiz1, hxle, hzle⟩ := hfacts
    simp only [mergeTile, hint]
    rw [copyRect_sentinel (images t.filePath) acc.canvas (ix0 - t.x0).toNat (iz0 - t.z0).toNat
      (ix0 - chunkX0).toNat (iz0 - chunkZ0).toNat (ix1 - ix0 + 1).toNat (iz1 - iz0 + 1).toNat
      (by
        intro j k hj hk
        have e1 : (ix0 - t.x0).toNat + k = ((ix0 + k) - t.x0).toNat := by omega
        have e2 : (iz0 - t.z0).toNat + j = ((iz0 + j) - t.z0).toNat := by omega
        rw [e1, e2]
        exact hall (ix0 + k) (iz0 + j) (by omega) (by omega) (by omega) (by omega)
          (by omega) (by omega) (by omega) (by omega))]
    simp

theorem writesAt_cons_none (images : String → Img) (t : TileRef) (ts : List TileRef)
    (wx wz : Int) (hw : tileWrite images wx wz t = none) :
    writesAt images (t :: ts) wx wz = writesAt images ts wx wz := by
  simp only [writesAt, List.filterMap_cons, hw]

theorem writesAt_cons_some (images : String → Img) (t : TileRef) (ts : List TileRef)
    (wx wz : Int) (p : Pixel) (hw : tileWrite images wx wz t = some p) :
    writesAt images (t :: ts) wx wz = p :: writesAt images ts wx wz := by
  simp only [writesAt, List.filterMap_cons, hw]

theorem foldl_mergeTile_apply (images : String → Img) (chunkX0 chunkZ0 : Int) (tileSize : Nat)
    (cx cy : Nat) (hcx : cx < tileSize) (hcy : cy < tileSize) :
    ∀ (tiles : List TileRef) (acc : MergeAcc),
      ((tiles.foldl (mergeTile images chunkX0 chunkZ0 (chunkX0 + (tileSize : Int) - 1)
          (chunkZ0 + (tileSize : Int) - 1)) acc).canvas (cx, cy)) =
        (writesAt images tiles (chunkX0 + cx) (chunkZ0 + cy)).getLast?.getD
          (acc.canvas (cx, cy)) := by
  intro tiles
  induction tiles with
  | nil => intro acc; rfl
  | cons t ts ih =>
    intro acc
    rw [List.foldl_cons, ih]
    rcases hw : tileWrite images (chunkX0 + cx) (chunkZ0 + cy) t with _ | p
    · rw [writesAt_cons_none images t ts _ _ hw,
        mergeTile_apply images chunkX0 chunkZ0 tileSize acc t cx cy hcx hcy, hw]
      rfl
    · rw [writesAt_cons_some images t ts _ _ p hw,
        mergeTile_apply images chunkX0 chunkZ0 tileSize acc t cx cy hcx hcy, hw]
      exact (getLast?_cons_getD p _ _).symm

theorem mergeSingleChunk_apply (images : String → Img)
    (indexes : String → Option (List TileRef)) (folderOrder : List String)
    (tileSize : Nat) (chunk : Chunk) (cx cy : Nat) (hcx : cx < tileSize) (hcy : cy < tileSize) :
    (mergeSingleChunk images indexes folderOrder tileSize chunk).1 (cx, cy) =
      (writesAt images
        (folderOrder.flatMap fun f => queryAreaFolder indexes f chunk.vx chunk.vz
          (chunk.vx + (tileSize : Int) - 1) (chunk.vz + (tileSize : Int) - 1))
        (chunk.vx + cx) (chunk.vz + cy)).getLast?.getD sentinel := by
  simp only [mergeSingleChunk]
  rw [← foldl_flatMap_eq]
  rw [foldl_mergeTile_apply images chunk.vx chunk.vz tileSize cx cy hcx hcy]

/-- C1: with the two layers `map0` and `map5`, composited in the registry
priority order `sortByCmp compareFolderName ["map0", "map5"]` (which puts
`map5` first and `map0` last), a world point where `map0` contributes exactly
one non-sentinel pixel `p0` and `map5` also contributes a non-sentinel pixel
ends up holding `p0` on the merged canvas: the later-applied `map0` (smallest
numeric suffix) overwrites `map5` and has final visual priority. -/
theorem mergeSingleChunk_layer_priority (images : String → Img)
    (idx0 idx5 : List TileRef) (tileSize : Nat) (chunk : Chunk) (cx cy : Nat)
    (hcx : cx < tileSize) (hcy : cy < tileSize) (p0 : Pixel)
    (indexes : String → Option (List TileRef))
    (hidx : indexes = fun f =>
      if f = "map0" then some idx0 else if f = "map5" then some idx5 else none)
    (h0 : writesAt images
      (queryAreaFolder indexes "map0" chunk.vx chunk.vz
        (chunk.vx + (tileSize : Int) - 1) (chunk.vz + (tileSize : Int) - 1))
      (chunk.vx + cx) (chunk.vz + cy) = [p0])
    (h5 : writesAt images
      (queryAreaFolder indexes "map5" chunk.vx chunk.vz
        (chunk.vx + (tileSize : Int) - 1) (chunk.vz + (tileSize : Int) - 1))
      (chunk.vx + cx) (chunk.vz + cy) ≠ []) :
    (mergeSingleChunk images indexes (sortByCmp compareFolderName ["map0", "map5"])
      tileSize chunk).1 (cx, cy) = p0 := by
  have hsort : sortByCmp compareFolderName ["map0", "map5"] = ["map5", "map0"] := by decide
  rw [hsort, mergeSingleChunk_apply images indexes ["map5", "map0"] tileSize chunk cx cy hcx hcy]
  rw [List.flatMap_cons, List.flatMap_cons, List.flatMap_nil, List.append_nil]
  rw [writesAt_append, h0]
  rw [List.getLast?_append]
  rfl

/-- C2: a chunk whose every overlapping source-tile pixel (within the chunk
rectangle) is the sentinel gets nothing written: `mergeSingleChunk` returns
the untouched all-black canvas with `wroteAny = false` and zero touched
tiles, and `processAndSaveChunk` without `saveEmpty` persists no file and
returns `[false, 0]`. -/
theorem mergeSingleChunk_all_sentinel (images : String → Img)
    (indexes : String → Option (List TileRef)) (folderOrder : List String)
    (tileSize : Nat) (chunk : Chunk)
    (hall : ∀ f ∈ folderOrder, ∀ t ∈ queryAreaFolder indexes f chunk.vx chunk.vz
        (chunk.vx + (tileSize : Int) - 1) (chunk.vz + (tileSize : Int) - 1),
      ∀ wx wz : Int, t.x0 ≤ wx → wx ≤ t.x1 → t.z0 ≤ wz → wz ≤ t.z1 →
        chunk.vx ≤ wx → wx ≤ chunk.vx + (tileSize : Int) - 1 →
        chunk.vz ≤ wz → wz ≤ chunk.vz + (tileSize : Int) - 1 →
        images t.filePath ((wx - t.x0).toNat, (wz - t.z0).toNat) = sentinel) :
    mergeSingleChunk images indexes folderOrder tileSize chunk =
      (fun _ => sentinel, false, 0) ∧
    processAndSaveChunk images indexes folderOrder tileSize false chunk =
      (false, 0, none) ∧
    processAndSaveChunk images indexes folderOrder tileSize true chunk =
      (true, 0, some (fun _ => sentinel)) := by
  have htile : ∀ (f : String), f ∈ folderOrder →
      ∀ (ts : List TileRef),
        (∀ t ∈ ts, t ∈ queryAreaFolder indexes f chunk.vx chunk.vz
          (chunk.vx + (tileSize : Int) - 1) (chunk.vz + (tileSize : Int) - 1)) →
        ∀ acc : MergeAcc,
          ts.foldl (mergeTile images chunk.vx chunk.vz
            (chunk.vx + (tileSize : Int) - 1) (chunk.vz + (tileSize : Int) - 1)) acc = acc := by
    intro f hf ts
    induction ts with
    | nil =>
      intro _ acc
      rfl
    | cons t ts ih =>
      intro hsub acc
      rw [List.foldl_cons,
        mergeTile_sentinel images chunk.vx chunk.vz tileSize acc t
          (hall f hf t (hsub t (by simp)))]
      exact ih (fun u hu => hsub u (List.mem_cons_of_mem t hu)) acc
  have hmain : mergeSingleChunk images indexes folderOrder tileSize chunk =
      (fun _ => sentinel, false, 0) := by
    simp only [mergeSingleChunk]
    have hfold : ∀ (fs : List String), (∀ f ∈ fs, f ∈ folderOrder) →
        ∀ acc : MergeAcc,
          fs.foldl (fun acc folder =>
            (queryAreaFolder indexes folder chunk.vx chunk.vz
              (chunk.vx + (tileSize : Int) - 1) (chunk.vz + (tileSize : Int) - 1)).foldl
              (mergeTile images chunk.vx chunk.vz (chunk.vx + (tileSize : Int) - 1)
                (chunk.vz + (tileSize : Int) - 1)) acc) acc = acc := by
      intro fs
      induction fs with
      | nil =>
        intro _ acc
        rfl
      | cons f fs ih =>
        intro hsub acc
        rw [List.foldl_cons, htile f (hsub f (by simp)) _ (fun t ht => ht) acc]
        exact ih (fun u hu => hsub u (List.mem_cons_of_mem f hu)) acc
    rw [hfold folderOrder (fun f hf => hf) _]
  refine ⟨hmain, ?_, ?_⟩
  · simp only [processAndSaveChunk, hmain]
    rfl
  · simp only [processAndSaveChunk, hmain]
    rfl


/-- Witness for C1: one red `map0` tile over one blue `map5` tile at the same
spot; the merged pixel is `map0`'s. -/
theorem mergeSingleChunk_layer_priority_witness :
    (mergeSingleChunk
      (fun n => if n = "a.png" then (fun _ => (200, 10, 10)) else (fun _ => (10, 10, 200)))
      (fun f => if f = "map0" then some [TileRef.make "a.png" 0 0 4]
        else if f = "map5" then some [TileRef.make "b.png" 0 0 4] else none)
      (sortByCmp compareFolderName ["map0", "map5"]) 4 ⟨0, 0, 0, 0⟩).1 (1, 1) =
      (200, 10, 10) :=
  mergeSingleChunk_layer_priority
    (fun n => if n = "a.png" then (fun _ => (200, 10, 10)) else (fun _ => (10, 10, 200)))
    [TileRef.make "a.png" 0 0 4] [TileRef.make "b.png" 0 0 4] 4 ⟨0, 0, 0, 0⟩ 1 1
    (by decide) (by decide) (200, 10, 10)
    (fun f => if f = "map0" then some [TileRef.make "a.png" 0 0 4]
      else if f = "map5" then some [TileRef.make "b.png" 0 0 4] else none)
    rfl (by decide) (by decide)

/-- Witness for C2: one all-sentinel tile over the chunk produces no output. -/
theorem mergeSingleChunk_all_sentinel_witness :
    mergeSingleChunk (fun _ => fun _ => (0, 0, 0))
      (fun f => if f = "map0" then some [TileRef.make "t.png" 0 0 4] else none)
      ["map0"] 4 ⟨0, 0, 0, 0⟩ = (fun _ => sentinel, false, 0) ∧
    processAndSaveChunk (fun _ => fun _ => (0, 0, 0))
      (fun f => if f = "map0" then some [TileRef.make "t.png" 0 0 4] else none)
      ["map0"] 4 false ⟨0, 0, 0, 0⟩ = (false, 0, none) :=
  have h := mergeSingleChunk_all_sentinel (fun _ => fun _ => (0, 0, 0))
    (fun f => if f = "map0" then some [TileRef.make "t.png" 0 0 4] else none)
    ["map0"] 4 ⟨0, 0, 0, 0⟩
    (fun _ _ _ _ _ _ _ _ _ _ _ _ _ _ => rfl)
  ⟨h.1, h.2.1⟩


/-- Witness for C4 on a concrete directory listing. -/
theorem getFolders_priority_order_witness :
    (getFolders [".hidden", "map5", "other", "map0", "Map2", "mapZ"]).Perm
      (([".hidden", "map5", "other", "map0", "Map2", "mapZ"] : List String).filter fun n =>
        !startsWithChars ['.'] n.data && startsWithChars ['m', 'a', 'p'] (lowerStr n).data) ∧
    getFolders [".hidden", "map5", "other", "map0", "Map2", "mapZ"] =
      ["map5", "Map2", "map0", "mapZ"] :=
  ⟨(getFolders_priority_order [".hidden", "map5", "other", "map0", "Map2", "mapZ"]).1,
   by decide⟩

/-- Witness for the amended C5 at the pipeline defaults. -/
theorem grid_phase_invariant_witness :
    (∀ c ∈ (createGrid 0 0 10 10 1024 (-512) 0).1,
      (c.vx - (-512)) % 1024 = 0 ∧ (c.vz - 0) % 1024 = 0) ∧
    ((parentCoord 1536 1024 (TILE_SIZE * 2 ^ 1)).1 - X_OFFSET) % (TILE_SIZE * 2 ^ 1) = 0 :=
  ⟨(grid_phase_invariant 0 0 10 10 1024 (-512) 0 1536 1024 1).1,
   (grid_phase_invariant 0 0 10 10 1024 (-512) 0 1536 1024 1).2.1.1⟩

end Xmap
